import Mathlib

/-
Shallow embedding of the MVCC engine in src/mvcc-rs/src/database.rs
(penberg/mvcc-rs).  Rust data structures are modelled as follows:

* `SkipMap<RowID, RwLock<Vec<RowVersion>>>` becomes an association list
  `List (RowID × List RowVersion)` kept in ascending lexicographic key
  order (new keys are inserted at their sorted position, mirroring the
  skip map's ordering, which `scan_row_ids_for_table` relies on).
* `HashMap<TxID, Transaction>` and `BTreeMap<u64, usize>` become
  association lists; `BTreeMap::first_key_value` becomes the minimum
  key of the list, which is what the ordered map returns.
* `HashSet<RowID>` write/read sets become duplicate-free `List RowID`
  (insertion only appends when the element is absent).
* machine integers (`u64`, `usize`) become `Nat`; the only place the
  bound matters is the `u64::MAX` literal in `scan_row_ids_for_table`,
  which is written explicitly as `2 ^ 64 - 1`.
* fallible operations return `Option ((Except DatabaseError α) × State)`:
  `none` models a Rust panic (a failed `assert!`, an `unwrap()` of a
  missing transaction, or a `todo!()` arm in the visibility code), and
  `some (.error e, s)` models `Err(e)` returned with the state `s` the
  engine is left in.
-/

namespace MvccRs

/-- Composite row identifier, `RowID` in database.rs: `(table_id, row_id)`,
ordered lexicographically (derived `PartialOrd`/`Ord` on the struct). -/
structure RowID where
  table_id : Nat
  row_id : Nat
deriving DecidableEq, Repr

/-- A row, `Row` in database.rs: identifier plus uninterpreted payload. -/
structure Row where
  id : RowID
  data : String
deriving DecidableEq, Repr

/-- A transaction timestamp or ID, `TxTimestampOrID` in database.rs. -/
inductive TxTimestampOrID where
  | Timestamp (ts : Nat)
  | TxID (id : Nat)
deriving DecidableEq, Repr

/-- A row version, `RowVersion` in database.rs.  The Rust fields `begin`
and `end` are Lean keywords, hence `vbegin` / `vend`. -/
structure RowVersion where
  vbegin : TxTimestampOrID
  vend : Option TxTimestampOrID
  row : Row
deriving DecidableEq, Repr

/-- A log record, `LogRecord` in database.rs: the commit timestamp and the
versions pushed during `commit_tx`. -/
structure LogRecord where
  tx_timestamp : Nat
  row_versions : List RowVersion
deriving DecidableEq, Repr

/-- Transaction state, `TransactionState` in database.rs. -/
inductive TransactionState where
  | Active
  | Preparing
  | Committed
  | Aborted
  | Terminated
deriving DecidableEq, Repr

/-- A transaction record, `Transaction` in database.rs. -/
structure Transaction where
  state : TransactionState
  tx_id : Nat
  begin_ts : Nat
  write_set : List RowID
  read_set : List RowID
deriving DecidableEq, Repr

/-- Modelled from the spec: the error taxonomy of errors.rs (the file is
not under src/; §7 of the spec lists `NoSuchTransactionID`,
`TxTerminated`, `WriteWriteConflict`, plus I/O and corruption errors). -/
inductive DatabaseError where
  | NoSuchTransactionID (id : Nat)
  | TxTerminated
  | WriteWriteConflict
  | Io
  | Corrupt
deriving DecidableEq, Repr

abbrev Rows := List (RowID × List RowVersion)
abbrev Txs := List (Nat × Transaction)

/-- Lexicographic strict order on `RowID` (derived `Ord` in Rust). -/
def rowIDltb (a b : RowID) : Bool :=
  decide (a.table_id < b.table_id) ||
    (decide (a.table_id = b.table_id) && decide (a.row_id < b.row_id))

section AssocMap

variable {κ ν : Type} [DecidableEq κ]

/-- Association-list lookup, the common model of `SkipMap::get`,
`HashMap::get` and `BTreeMap::get`. -/
def alookup (l : List (κ × ν)) (k : κ) : Option ν :=
  (l.find? (fun p => p.1 == k)).map (·.2)

/-- Overwrite the value stored under a key (a no-op when absent). -/
def aset (l : List (κ × ν)) (k : κ) (v : ν) : List (κ × ν) :=
  l.map (fun p => if p.1 = k then (k, v) else p)

/-- Remove all entries with the given key. -/
def aremove (l : List (κ × ν)) (k : κ) : List (κ × ν) :=
  l.filter (fun p => decide (p.1 ≠ k))

theorem alookup_nil (k : κ) : alookup ([] : List (κ × ν)) k = none := rfl

theorem alookup_cons (p : κ × ν) (l : List (κ × ν)) (k : κ) :
    alookup (p :: l) k = if p.1 = k then some p.2 else alookup l k := by
  by_cases h : p.1 = k <;>
    simp [alookup, List.find?_cons_of_pos, List.find?_cons_of_neg, h]

theorem mem_of_alookup {l : List (κ × ν)} {k : κ} {v : ν}
    (h : alookup l k = some v) : (k, v) ∈ l := by
  induction l with
  | nil => simp [alookup] at h
  | cons p rest ih =>
    rw [alookup_cons] at h
    by_cases hp : p.1 = k
    · simp [hp] at h
      subst hp h
      exact List.mem_cons_self _ _
    · simp [hp] at h
      exact List.mem_cons_of_mem _ (ih h)

theorem alookup_aset_self {l : List (κ × ν)} {k : κ} {v₀ : ν} (v : ν)
    (h : alookup l k = some v₀) : alookup (aset l k v) k = some v := by
  induction l with
  | nil => simp [alookup] at h
  | cons p rest ih =>
    rw [alookup_cons] at h
    by_cases hp : p.1 = k
    · simp [aset, hp, alookup_cons]
    · simp [hp] at h
      simpa [aset, hp, alookup_cons] using ih h

theorem alookup_aset_of_none {l : List (κ × ν)} {k : κ} (v : ν)
    (h : alookup l k = none) : alookup (aset l k v) k = none := by
  induction l with
  | nil => rfl
  | cons p rest ih =>
    rw [alookup_cons] at h
    by_cases hp : p.1 = k
    · simp [hp] at h
    · simp [hp] at h
      simpa [aset, hp, alookup_cons] using ih h

theorem alookup_aset_ne {l : List (κ × ν)} {k k' : κ} (v : ν) (h : k' ≠ k) :
    alookup (aset l k v) k' = alookup l k' := by
  induction l with
  | nil => rfl
  | cons p rest ih =>
    by_cases hp : p.1 = k
    · have hne : ¬ p.1 = k' := by
        rw [hp]
        exact fun hh => h hh.symm
      rw [show aset (p :: rest) k v = (k, v) :: aset rest k v by simp [aset, hp],
        alookup_cons, alookup_cons, if_neg (fun hh => h hh.symm), if_neg hne, ih]
    · rw [show aset (p :: rest) k v = p :: aset rest k v by simp [aset, hp],
        alookup_cons, alookup_cons, ih]

theorem alookup_aremove_self (l : List (κ × ν)) (k : κ) :
    alookup (aremove l k) k = none := by
  induction l with
  | nil => rfl
  | cons p rest ih =>
    by_cases hp : p.1 = k
    · simpa [aremove, hp] using ih
    · simpa [aremove, hp, alookup_cons] using ih

theorem alookup_aremove_ne {l : List (κ × ν)} {k k' : κ} (h : k' ≠ k) :
    alookup (aremove l k) k' = alookup l k' := by
  induction l with
  | nil => rfl
  | cons p rest ih =>
    by_cases hp : p.1 = k
    · have hne : ¬ p.1 = k' := by
        rw [hp]
        exact fun hh => h hh.symm
      rw [show aremove (p :: rest) k = aremove rest k by simp [aremove, hp],
        ih, alookup_cons, if_neg hne]
    · rw [show aremove (p :: rest) k = p :: aremove rest k by simp [aremove, hp],
        alookup_cons, alookup_cons, ih]

theorem mem_aset {l : List (κ × ν)} {k : κ} {v : ν} {p : κ × ν}
    (h : p ∈ aset l k v) : p = (k, v) ∨ (p ∈ l ∧ p.1 ≠ k) := by
  rcases List.mem_map.mp h with ⟨q, hq, hEq⟩
  by_cases hk : q.1 = k
  · left
    rw [if_pos hk] at hEq
    exact hEq.symm
  · right
    rw [if_neg hk] at hEq
    subst hEq
    exact ⟨hq, hk⟩

theorem mem_aremove {l : List (κ × ν)} {k : κ} {p : κ × ν}
    (h : p ∈ aremove l k) : p ∈ l ∧ p.1 ≠ k := by
  simpa using List.mem_filter.mp h

theorem keys_aset (l : List (κ × ν)) (k : κ) (v : ν) :
    (aset l k v).map Prod.fst = l.map Prod.fst := by
  induction l with
  | nil => rfl
  | cons p rest ih =>
    by_cases hp : p.1 = k
    · rw [show aset (p :: rest) k v = (k, v) :: aset rest k v by simp [aset, hp]]
      simp [ih, hp]
    · rw [show aset (p :: rest) k v = p :: aset rest k v by simp [aset, hp]]
      simp [ih]

end AssocMap

/-- Lookup of a row's version chain (`SkipMap::get`). -/
def lookupRows (rows : Rows) (id : RowID) : Option (List RowVersion) :=
  alookup rows id

/-- Replace the chain stored under an existing key. -/
def setChain (rows : Rows) (id : RowID) (chain : List RowVersion) : Rows :=
  aset rows id chain

/-- Insert a fresh key at its sorted position (skip-map insertion). -/
def insertRowSorted (id : RowID) (chain : List RowVersion) : Rows → Rows
  | [] => [(id, chain)]
  | p :: rest =>
    if rowIDltb id p.1 then (id, chain) :: p :: rest
    else p :: insertRowSorted id chain rest

/-- `SkipMap::get_or_insert_with` followed by storing `chain` under `id`. -/
def upsertChain (rows : Rows) (id : RowID) (chain : List RowVersion) : Rows :=
  match lookupRows rows id with
  | some _ => setChain rows id chain
  | none => insertRowSorted id chain rows

/-- `SkipMap::remove`. -/
def removeRow (rows : Rows) (id : RowID) : Rows :=
  aremove rows id

/-- `HashMap::get` on the transaction table. -/
def getTx (txs : Txs) (id : Nat) : Option Transaction :=
  alookup txs id

/-- Overwrite the transaction stored under an existing key. -/
def setTx (txs : Txs) (id : Nat) (tx : Transaction) : Txs :=
  aset txs id tx

/-- `HashMap::remove` on the transaction table. -/
def removeTx (txs : Txs) (id : Nat) : Txs :=
  aremove txs id

/-- `tx_timestamps.entry(begin_ts).or_insert(0) += 1` in `begin_tx`. -/
def bumpTs (m : List (Nat × Nat)) (ts : Nat) : List (Nat × Nat) :=
  if (m.find? (fun p => p.1 == ts)).isSome then
    m.map (fun p => if p.1 = ts then (ts, p.2 + 1) else p)
  else m ++ [(ts, 1)]

/-- The histogram decrement performed by `commit_tx`: decrement the count
at `ts` and drop the entry when it reaches zero; do nothing when absent. -/
def decTs (m : List (Nat × Nat)) (ts : Nat) : List (Nat × Nat) :=
  match m.find? (fun p => p.1 == ts) with
  | none => m
  | some p =>
    if p.2 - 1 = 0 then m.filter (fun q => decide (q.1 ≠ ts))
    else m.map (fun q => if q.1 = ts then (ts, p.2 - 1) else q)

/-- `BTreeMap::first_key_value` on the histogram: its least key. -/
def minKey (m : List (Nat × Nat)) : Option Nat :=
  m.foldr (fun p acc => match acc with
    | none => some p.1
    | some b => some (Nat.min p.1 b)) none

/-- `is_write_write_conflict` in database.rs.  `none` models the panics:
the `unwrap()` of a missing transaction and the `todo!()` arms for
non-`Active` states. -/
def is_write_write_conflict (txs : Txs) (tx : Transaction) (rv : RowVersion) :
    Option Bool :=
  match rv.vend with
  | some (.TxID rv_end) =>
    match getTx txs rv_end with
    | none => none
    | some te =>
      match te.state with
      | .Active => some (decide (tx.tx_id ≠ te.tx_id))
      | _ => none
  | some (.Timestamp _) => some false
  | none => some false

/-- `is_begin_visible` in database.rs. -/
def is_begin_visible (txs : Txs) (tx : Transaction) (rv : RowVersion) :
    Option Bool :=
  match rv.vbegin with
  | .Timestamp rv_begin_ts => some (decide (tx.begin_ts ≥ rv_begin_ts))
  | .TxID rv_begin =>
    match getTx txs rv_begin with
    | none => none
    | some tb =>
      match tb.state with
      | .Active => some (decide (tx.tx_id = tb.tx_id) && rv.vend.isNone)
      | _ => none

/-- `is_end_visible` in database.rs. -/
def is_end_visible (txs : Txs) (tx : Transaction) (rv : RowVersion) :
    Option Bool :=
  match rv.vend with
  | some (.Timestamp rv_end_ts) => some (decide (tx.begin_ts < rv_end_ts))
  | some (.TxID rv_end) =>
    match getTx txs rv_end with
    | none => none
    | some te =>
      match te.state with
      | .Active => some (decide (tx.tx_id ≠ te.tx_id))
      | _ => none
  | none => some true

/-- `is_version_visible` in database.rs: `is_begin_visible && is_end_visible`
with Rust's short-circuit evaluation. -/
def is_version_visible (txs : Txs) (tx : Transaction) (rv : RowVersion) :
    Option Bool :=
  match is_begin_visible txs tx rv with
  | none => none
  | some false => some false
  | some true => is_end_visible txs tx rv

/-- The engine state, `DatabaseInner` in database.rs.  The clock is the
engine's `LogicalClock` collaborator, modelled from the spec (clock.rs is
not under src/): `now()` returns the current counter value and the next
call returns a strictly larger one.  The storage is the durable log
collaborator, modelled from the spec (persistent_storage.rs is not under
src/): `log_tx` appends a record. -/
structure DatabaseInner where
  rows : Rows
  txs : Txs
  tx_timestamps : List (Nat × Nat)
  tx_ids : Nat
  clock : Nat
  storage : List LogRecord
deriving DecidableEq, Repr

/-- The empty engine created by `Database::new`: transaction IDs start at
1 (0 is reserved), the clock at 0, everything else empty. -/
def initialDb : DatabaseInner :=
  { rows := [], txs := [], tx_timestamps := [], tx_ids := 1, clock := 0,
    storage := [] }

/-- `get_timestamp`: read the clock and advance it. -/
def tick (db : DatabaseInner) : Nat × DatabaseInner :=
  (db.clock, { db with clock := db.clock + 1 })

/-- HashSet-style insertion used by `insert_to_write_set` and
`insert_to_read_set`: append only when absent. -/
def insertDedup (l : List RowID) (id : RowID) : List RowID :=
  if id ∈ l then l else l ++ [id]

/-- `DatabaseInner::begin_tx`: allocate a fresh transaction ID, read the
clock for `begin_ts`, register the `Active` transaction and bump the
active-begin histogram.  Returns the new ID and the new state. -/
def begin_tx (db : DatabaseInner) : Nat × DatabaseInner :=
  let tx_id := db.tx_ids
  let begin_ts := db.clock
  let tx : Transaction :=
    { state := .Active, tx_id := tx_id, begin_ts := begin_ts,
      write_set := [], read_set := [] }
  (tx_id,
    { db with
        tx_ids := db.tx_ids + 1
        clock := db.clock + 1
        txs := (tx_id, tx) :: db.txs
        tx_timestamps := bumpTs db.tx_timestamps begin_ts })

/-- `DatabaseInner::insert`: look the transaction up (absent ⇒
`NoSuchTransactionID`), `assert!` that it is `Active` (`none` models the
panic), append a fresh version bound to the transaction's ID to the
row's chain, and record the row in the write set. -/
def DatabaseInner.insert (db : DatabaseInner) (tx_id : Nat) (row : Row) :
    Option (Except DatabaseError Unit × DatabaseInner) :=
  match getTx db.txs tx_id with
  | none => some (.error (.NoSuchTransactionID tx_id), db)
  | some tx =>
    if tx.state = .Active then
      let rv : RowVersion := { vbegin := .TxID tx.tx_id, vend := none, row := row }
      let chain := (lookupRows db.rows row.id).getD []
      let tx' := { tx with write_set := insertDedup tx.write_set row.id }
      some (.ok (),
        { db with
            rows := upsertChain db.rows row.id (chain ++ [rv])
            txs := setTx db.txs tx_id tx' })
    else none

/-- `DatabaseInner::rollback_tx`: `unwrap` the transaction (`none` models
the panic), `assert!` it is `Active`, drop every version whose `begin`
is the transaction's ID from each write-set chain (removing chains that
become empty), and leave the transaction in the table with state
`Terminated`.  (`Aborted` is set transiently and immediately overwritten
by `Terminated`; no intermediate state is observable here.) -/
def rollbackRows (tx_id : Nat) : List RowID → Rows → Rows
  | [], rows => rows
  | id :: rest, rows =>
    match lookupRows rows id with
    | none => rollbackRows tx_id rest rows
    | some chain =>
      let chain' := chain.filter (fun rv => decide (rv.vbegin ≠ .TxID tx_id))
      if chain'.isEmpty then rollbackRows tx_id rest (removeRow rows id)
      else rollbackRows tx_id rest (setChain rows id chain')

/-- See `rollbackRows`; this is the whole of `rollback_tx`. -/
def rollback_tx (db : DatabaseInner) (tx_id : Nat) : Option DatabaseInner :=
  match getTx db.txs tx_id with
  | none => none
  | some tx =>
    if tx.state = .Active then
      some { db with
        rows := rollbackRows tx_id tx.write_set db.rows
        txs := setTx db.txs tx_id { tx with state := .Terminated } }
    else none

/-- Result of the newest-first scan inside `DatabaseInner::delete`,
operating on the reversed chain. -/
inductive ScanOutcome where
  | conflict
  | marked (rvsRev : List RowVersion)
  | missed
deriving DecidableEq, Repr

/-- The scan loop of `DatabaseInner::delete` over the reversed chain: per
version, first check `is_write_write_conflict` (abort on conflict), then
`is_version_visible`; the first visible version gets its `end` set to
the deleting transaction's ID.  `none` propagates the visibility panics. -/
def deleteScanRev (txs : Txs) (tx : Transaction) :
    List RowVersion → Option ScanOutcome
  | [] => some .missed
  | rv :: rest =>
    match is_write_write_conflict txs tx rv with
    | none => none
    | some true => some .conflict
    | some false =>
      match is_version_visible txs tx rv with
      | none => none
      | some true =>
        some (.marked ({ rv with vend := some (.TxID tx.tx_id) } :: rest))
      | some false =>
        match deleteScanRev txs tx rest with
        | none => none
        | some .conflict => some .conflict
        | some .missed => some .missed
        | some (.marked rest') => some (.marked (rv :: rest'))

/-- `DatabaseInner::delete`.  When the row (or a non-empty chain) is
absent the function returns `Ok(false)` without consulting the
transaction at all; otherwise the transaction is looked up inside the
loop (absent ⇒ `NoSuchTransactionID`, non-`Active` ⇒ assertion panic).
A write-write conflict rolls the transaction back synchronously and
surfaces `WriteWriteConflict`. -/
def DatabaseInner.delete (db : DatabaseInner) (tx_id : Nat) (id : RowID) :
    Option (Except DatabaseError Bool × DatabaseInner) :=
  match lookupRows db.rows id with
  | none => some (.ok false, db)
  | some chain =>
    if chain.isEmpty then some (.ok false, db)
    else
      match getTx db.txs tx_id with
      | none => some (.error (.NoSuchTransactionID tx_id), db)
      | some tx =>
        if tx.state = .Active then
          match deleteScanRev db.txs tx chain.reverse with
          | none => none
          | some .conflict =>
            match rollback_tx db tx_id with
            | none => none
            | some db' => some (.error .WriteWriteConflict, db')
          | some .missed => some (.ok false, db)
          | some (.marked rev') =>
            let tx' := { tx with write_set := insertDedup tx.write_set id }
            some (.ok true,
              { db with
                  rows := setChain db.rows id rev'.reverse
                  txs := setTx db.txs tx_id tx' })
        else none

/-- `Database::update`: `delete` then, on success, `insert`. -/
def DatabaseInner.update (db : DatabaseInner) (tx_id : Nat) (row : Row) :
    Option (Except DatabaseError Bool × DatabaseInner) :=
  match db.delete tx_id row.id with
  | none => none
  | some (.error e, db') => some (.error e, db')
  | some (.ok false, db') => some (.ok false, db')
  | some (.ok true, db') =>
    match db'.insert tx_id row with
    | none => none
    | some (.error e, db'') => some (.error e, db'')
    | some (.ok _, db'') => some (.ok true, db'')

/-- The newest-first scan of `DatabaseInner::read`: the first visible
version's row is returned.  `none` propagates the visibility panics. -/
def readScanRev (txs : Txs) (tx : Transaction) :
    List RowVersion → Option (Option Row)
  | [] => some none
  | rv :: rest =>
    match is_version_visible txs tx rv with
    | none => none
    | some true => some (some rv.row)
    | some false => readScanRev txs tx rest

/-- `DatabaseInner::read`: `unwrap` the transaction (`none` models the
panic), `assert!` it is `Active`, scan newest first; on a hit the row ID
is added to the read set, otherwise the state is untouched. -/
def DatabaseInner.read (db : DatabaseInner) (tx_id : Nat) (id : RowID) :
    Option (Option Row × DatabaseInner) :=
  match getTx db.txs tx_id with
  | none => none
  | some tx =>
    if tx.state = .Active then
      match lookupRows db.rows id with
      | none => some (none, db)
      | some chain =>
        match readScanRev db.txs tx chain.reverse with
        | none => none
        | some none => some (none, db)
        | some (some r) =>
          let tx' := { tx with read_set := insertDedup tx.read_set id }
          some (some r, { db with txs := setTx db.txs tx_id tx' })
    else none

/-- One version's processing inside the `commit_tx` loop: if its `begin`
is the committing transaction's ID it is rewritten to the transaction's
`begin_ts` and a clone is pushed to the log; if (afterwards) its `end`
is the transaction's ID it is rewritten to the commit timestamp and a
clone is pushed again.  Returns the rewritten version and the pushed
clones in push order. -/
def commitVersion (tx_id begin_ts end_ts : Nat) (rv : RowVersion) :
    RowVersion × List RowVersion :=
  let s1 :=
    if rv.vbegin = .TxID tx_id then
      let r := { rv with vbegin := .Timestamp begin_ts }
      (r, [r])
    else (rv, ([] : List RowVersion))
  if s1.1.vend = some (.TxID tx_id) then
    let r := { s1.1 with vend := some (.Timestamp end_ts) }
    (r, s1.2 ++ [r])
  else s1

/-- The `commit_tx` loop over one chain, in chain order. -/
def commitChain (tx_id begin_ts end_ts : Nat) :
    List RowVersion → List RowVersion × List RowVersion
  | [] => ([], [])
  | rv :: rest =>
    let h := commitVersion tx_id begin_ts end_ts rv
    let t := commitChain tx_id begin_ts end_ts rest
    (h.1 :: t.1, h.2 ++ t.2)

/-- The `commit_tx` loop over the write set: rows absent from the store
are skipped, present chains are rewritten in place and their log clones
accumulated. -/
def commitFold (tx_id begin_ts end_ts : Nat) :
    List RowID → Rows → List RowVersion → Rows × List RowVersion
  | [], rows, log => (rows, log)
  | id :: rest, rows, log =>
    match lookupRows rows id with
    | none => commitFold tx_id begin_ts end_ts rest rows log
    | some chain =>
      let c := commitChain tx_id begin_ts end_ts chain
      commitFold tx_id begin_ts end_ts rest (setChain rows id c.1) (log ++ c.2)

/-- `DatabaseInner::commit_tx`: read the clock for the commit timestamp,
`unwrap` the transaction (`none` models the panic); a `Terminated`
transaction yields `Err(TxTerminated)`, any other non-`Active` state
fails the `assert!` (panic).  Otherwise rewrite the write-set chains,
decrement the histogram at `begin_ts`, remove the transaction from the
table, and append the log record when it is non-empty.  (The transient
`Preparing`/`Committed` states are unobservable: the transaction is
removed before the function returns.) -/
def DatabaseInner.commit_tx (db : DatabaseInner) (tx_id : Nat) :
    Option (Except DatabaseError Unit × DatabaseInner) :=
  let end_ts := db.clock
  let db0 := { db with clock := db.clock + 1 }
  match getTx db0.txs tx_id with
  | none => none
  | some tx =>
    match tx.state with
    | .Terminated => some (.error .TxTerminated, db0)
    | .Active =>
      let c := commitFold tx_id tx.begin_ts end_ts tx.write_set db0.rows []
      some (.ok (),
        { db0 with
            rows := c.1
            txs := removeTx db0.txs tx_id
            tx_timestamps := decTs db0.tx_timestamps tx.begin_ts
            storage :=
              if c.2.isEmpty then db0.storage
              else db0.storage ++ [{ tx_timestamp := end_ts, row_versions := c.2 }] })
    | _ => none

/-- The retention predicate of `drop_unused_row_versions`: keep a
version iff its `end` is `None`, or a `TxID` that is **no longer** in
the transaction table (the source computes `!txs.contains_key(&tx_id)`,
the inverse of what its own comment describes), or a timestamp at least
the histogram's least key. -/
def retainVersion (txs : Txs) (m : List (Nat × Nat)) (rv : RowVersion) : Bool :=
  match rv.vend with
  | some (.Timestamp version_end_ts) =>
    match minKey m with
    | some begin_ts => decide (version_end_ts ≥ begin_ts)
    | none => false
  | some (.TxID tx_id) => (getTx txs tx_id).isNone
  | none => true

/-- `DatabaseInner::drop_unused_row_versions`: filter every chain with
`retainVersion`, then remove the rows whose chain became empty. -/
def drop_unused_row_versions (db : DatabaseInner) : DatabaseInner :=
  { db with
      rows :=
        (db.rows.map (fun p => (p.1, p.2.filter (retainVersion db.txs db.tx_timestamps)))).filter
          (fun p => !p.2.isEmpty) }

/-- `DatabaseInner::scan_row_ids_for_table`: the skip-map range from
`RowID(table_id, 0)` (inclusive) to `RowID(table_id, u64::MAX)`
(exclusive, Rust's `..` range), in key order. -/
def scan_row_ids_for_table (db : DatabaseInner) (table_id : Nat) : List RowID :=
  (db.rows.filter (fun p =>
    (!rowIDltb p.1 { table_id := table_id, row_id := 0 }) &&
      rowIDltb p.1 { table_id := table_id, row_id := 2 ^ 64 - 1 })).map (·.1)

/-- One engine call, used to build executions. -/
inductive Op where
  | beginTx
  | insert (tx_id : Nat) (row : Row)
  | update (tx_id : Nat) (row : Row)
  | delete (tx_id : Nat) (id : RowID)
  | commit (tx_id : Nat)
  | rollback (tx_id : Nat)
  | gc
deriving DecidableEq, Repr

/-- Execute one call, keeping only the resulting state; `none` is a
panic.  A call that returns `Err` still yields the state the engine is
left in (e.g. the rolled-back state after a write-write conflict). -/
def exec (db : DatabaseInner) : Op → Option DatabaseInner
  | .beginTx => some (begin_tx db).2
  | .insert t r => (db.insert t r).map (·.2)
  | .update t r => (db.update t r).map (·.2)
  | .delete t i => (db.delete t i).map (·.2)
  | .commit t => (db.commit_tx t).map (·.2)
  | .rollback t => rollback_tx db t
  | .gc => some (drop_unused_row_versions db)

/-- Execute a sequence of calls; `none` as soon as one panics. -/
def execTrace (db : DatabaseInner) : List Op → Option DatabaseInner
  | [] => some db
  | op :: rest =>
    match exec db op with
    | none => none
    | some db' => execTrace db' rest

/-! Concrete inputs used by the counterexamples and evaluations below. -/

def rid11 : RowID := { table_id := 1, row_id := 1 }

def rowA : Row := { id := rid11, data := "a" }

def rowB : Row := { id := rid11, data := "b" }

def rowC : Row := { id := rid11, data := "c" }

/-- The lost-update interleaving of the source's `test_lost_update`:
transaction 1 inserts and commits, transaction 2 updates (and stays
active), transaction 3 then updates and loses the write-write conflict,
which rolls it back synchronously. -/
def conflictTrace : List Op :=
  [.beginTx, .insert 1 rowA, .commit 1, .beginTx, .update 2 rowB,
   .beginTx, .update 3 rowC]

/-- A trace ending with no `Active` transaction but with a rolled-back
(`Terminated`) transaction of `begin_ts = 2` lingering in the table:
transaction 1 (begin 0) inserts and commits (at 1), transaction 2
(begin 2) rolls back, transaction 3 (begin 3) deletes the row and
commits (at 4). -/
def gcTrace : List Op :=
  [.beginTx, .insert 1 rowA, .commit 1, .beginTx, .rollback 2,
   .beginTx, .delete 3 rid11, .commit 3]

/-- C2, counterexample.  A = transaction 1 begins at timestamp 0, B =
transaction 2 begins at `bB = 1`, then A inserts a row and commits at
`cA = 2` (the emitted log record carries timestamp 2, and B's recorded
`begin_ts` is 1, both checked below).  Although `cA > bB`, B's read
returns A's write, because `commit_tx` rewrites the version's begin
marker to A's *begin* timestamp 0 ≤ 1 — refuting "if cA > bB then no
read by B returns A's write". -/
theorem C2_counterexample :
    (execTrace initialDb [.beginTx, .beginTx, .insert 1 rowA, .commit 1]).map
      (fun s => (s.storage.map (·.tx_timestamp),
                 (getTx s.txs 2).map (·.begin_ts),
                 (s.read 2 rid11).map (·.1))) =
      some ([2], some 1, some (some rowA)) := by
  rfl

/-- C3, evaluation at the failing input.  Transaction 1 inserts `rowA`
and commits; transaction 2 deletes the row (setting the version's end
marker to `TxID 2`) and then rolls back.  The claim says rollback clears
the end marker back to `None`; the code's `rollback_tx` only removes
versions whose *begin* is the transaction's ID, so the marker
`Some(TxID(2))` survives, as computed here. -/
theorem C3_rollback_leaves_end_marker :
    (execTrace initialDb
        [.beginTx, .insert 1 rowA, .commit 1, .beginTx, .delete 2 rid11,
         .rollback 2]).map
      (fun s => lookupRows s.rows rid11) =
      some (some [{ vbegin := .Timestamp 0, vend := some (.TxID 2), row := rowA }]) := by
  rfl

/-- C4, counterexample.  Transaction 1 begins (at timestamp 0) and rolls
back.  After `rollback_tx` returns the transaction is still in the live
table (with state `Terminated`) and the active-begin histogram still
holds its entry `(0, 1)` — refuting "the transaction is removed from
the live transaction table and the histogram entry is decremented". -/
theorem C4_counterexample :
    (execTrace initialDb [.beginTx, .rollback 1]).map
      (fun s => ((getTx s.txs 1).map (·.state), s.tx_timestamps)) =
      some (some .Terminated, [(0, 1)]) := by
  rfl

/-- C5, evaluation at the failing input.  Transaction 1 inserts `rowA`,
deletes it again, and commits (begin timestamp 0, commit timestamp 1).
The emitted log record contains the version twice — once per `if` in the
`commit_tx` loop — and the first clone still carries the unrewritten
marker `end = Some(TxID(1))`, refuting "appears once with all TxID
markers already rewritten". -/
theorem C5_commit_log_duplicates :
    (execTrace initialDb [.beginTx, .insert 1 rowA, .delete 1 rid11, .commit 1]).map
      (·.storage) =
      some [{ tx_timestamp := 1,
              row_versions :=
                [{ vbegin := .Timestamp 0, vend := some (.TxID 1), row := rowA },
                 { vbegin := .Timestamp 0, vend := some (.Timestamp 1), row := rowA }] }] := by
  rfl

/-- C6, counterexample.  In the lost-update interleaving, transaction
3's update loses the write-write conflict (first conjunct) and
transaction 3 is left `Terminated` (second conjunct); but a subsequent
`read` with its TxID does **not** return the `TxTerminated` error: it
hits the `assert!(tx.state == Active)` and panics (modelled as `none`,
third conjunct) — refuting "every further operation … returns the
TxTerminated error". -/
theorem C6_counterexample :
    ((execTrace initialDb
          [.beginTx, .insert 1 rowA, .commit 1, .beginTx, .update 2 rowB,
           .beginTx]).bind
        (fun s => (s.update 3 rowC).map (·.1)) =
        some (.error .WriteWriteConflict)) ∧
      ((execTrace initialDb conflictTrace).map
          (fun s => (getTx s.txs 3).map (·.state)) = some (some .Terminated)) ∧
      (execTrace initialDb conflictTrace).bind (fun s => s.read 3 rid11) = none := by
  exact ⟨rfl, rfl, rfl⟩

/-- C7, counterexample.  After `gcTrace` the only transaction left in
the table is the rolled-back, `Terminated` transaction 2, so no *active*
transaction exists; yet `drop_unused_row_versions` retains the version
with `end = Timestamp(4)`, because the histogram still holds transaction
2's `begin_ts = 2 ≤ 4` — refuting "v remains iff there exists an active
transaction T with T.begin_ts ≤ e". -/
theorem C7_counterexample :
    (execTrace initialDb gcTrace).map
      (fun s =>
        (lookupRows (drop_unused_row_versions s).rows rid11,
         s.txs.map (fun p => (p.1, p.2.state)))) =
      some (some [{ vbegin := .Timestamp 0, vend := some (.Timestamp 4), row := rowA }],
            [(2, .Terminated)]) := by
  rfl

/-- C8, counterexample.  Transaction 1 inserts `rowA` and then `rowB`
under the same RowID; `insert` appends unconditionally, so the chain
ends up with **two** versions with `end = None`, and both are visible to
transaction 1 — refuting "at most one version in the chain has end =
None … including two inserts of the same RowID by the same active
transaction". -/
theorem C8_counterexample :
    (execTrace initialDb [.beginTx, .insert 1 rowA, .insert 1 rowB]).map
      (fun s =>
        (lookupRows s.rows rid11).map (fun ch =>
          (ch.countP (fun rv => rv.vend.isNone),
           (getTx s.txs 1).map (fun tx => ch.map (is_version_visible s.txs tx))))) =
      some (some (2, some [some true, some true])) := by
  rfl

/-- C9, evaluation at the failing input.  Transaction 1 inserts a row
with `row_id = u64::MAX = 2 ^ 64 - 1`; the row is present in the store
(second component) but `scan_row_ids_for_table` returns the empty list
(first component), because the skip-map range `RowID(t, 0) ..
RowID(t, u64::MAX)` excludes its upper bound — refuting "a stored row
with row_id == u64::MAX is included". -/
theorem C9_scan_misses_max_row :
    (execTrace initialDb
        [.beginTx, .insert 1 { id := { table_id := 1, row_id := 2 ^ 64 - 1 }, data := "x" }]).map
      (fun s =>
        (scan_row_ids_for_table s 1,
         (lookupRows s.rows { table_id := 1, row_id := 2 ^ 64 - 1 }).isSome)) =
      some ([], true) := by
  rfl

/-! General theorems. -/

/-- C10.  For an active transaction, a `read` that returns `None` leaves
the state completely unchanged (in particular the row is not added to
the read set and no chain or row-map entry is touched), and a `read`
that returns `Some` changes nothing but the reader's read set, into
which the row ID is inserted. -/
theorem C10_read_none_frame (db : DatabaseInner) (tx_id : Nat) (id : RowID)
    (tx : Transaction)
    (hget : getTx db.txs tx_id = some tx) (hact : tx.state = .Active) :
    (∀ s, db.read tx_id id = some (none, s) → s = db) ∧
      (∀ r s, db.read tx_id id = some (some r, s) →
        s.rows = db.rows ∧ s.tx_timestamps = db.tx_timestamps ∧
        s.clock = db.clock ∧ s.storage = db.storage ∧
        getTx s.txs tx_id =
          some { tx with read_set := insertDedup tx.read_set id }) := by
  unfold DatabaseInner.read
  rw [hget]
  simp only [hact, if_pos]
  cases hrows : lookupRows db.rows id with
  | none =>
    constructor
    · intro s hs
      cases hs
      rfl
    · intro r s hs
      cases hs
  | some chain =>
    dsimp only
    cases hscan : readScanRev db.txs tx chain.reverse with
    | none =>
      constructor
      · intro s hs
        cases hs
      · intro r s hs
        cases hs
    | some o =>
      cases o with
      | none =>
        constructor
        · intro s hs
          cases hs
          rfl
        · intro r s hs
          cases hs
      | some r0 =>
        constructor
        · intro s hs
          cases hs
        · intro r s hs
          cases hs
          exact ⟨rfl, rfl, rfl, rfl, alookup_aset_self _ hget⟩

/-- A concrete state used by witnesses: the state after
`execTrace initialDb [.beginTx, .insert 1 rowA]` — transaction 1 is
active with begin timestamp 0 and has inserted `rowA`. -/
def dbInsertActive : DatabaseInner :=
  { rows := [(rid11, [{ vbegin := .TxID 1, vend := none, row := rowA }])]
    txs := [(1, { state := .Active, tx_id := 1, begin_ts := 0,
                  write_set := [rid11], read_set := [] })]
    tx_timestamps := [(0, 1)], tx_ids := 2, clock := 1, storage := [] }

/-- Sanity check: `dbInsertActive` is reachable. -/
theorem dbInsertActive_reachable :
    execTrace initialDb [.beginTx, .insert 1 rowA] = some dbInsertActive := by
  rfl

/-- C10, witness: transaction 1 reads its own insert; the returned state
only differs in the read set, which now holds the row ID. -/
theorem C10_read_none_frame_witness :
    dbInsertActive.read 1 rid11 =
      some (some rowA,
        { dbInsertActive with
            txs := [(1, { state := .Active, tx_id := 1, begin_ts := 0,
                          write_set := [rid11], read_set := [rid11] })] }) ∧
      ({ dbInsertActive with
          txs := [(1, { state := .Active, tx_id := 1, begin_ts := 0,
                        write_set := [rid11], read_set := [rid11] })] } :
            DatabaseInner).rows = dbInsertActive.rows ∧
      getTx ({ dbInsertActive with
          txs := [(1, { state := .Active, tx_id := 1, begin_ts := 0,
                        write_set := [rid11], read_set := [rid11] })] } :
            DatabaseInner).txs 1 =
        some { state := .Active, tx_id := 1, begin_ts := 0,
               write_set := [rid11], read_set := [rid11] } := by
  refine ⟨rfl, ?_, ?_⟩
  · exact ((C10_read_none_frame dbInsertActive 1 rid11 _ rfl rfl).2 rowA _ rfl).1
  · exact ((C10_read_none_frame dbInsertActive 1 rid11 _ rfl rfl).2 rowA _ rfl).2.2.2.2

/-- C4, amended.  `rollback_tx` on an active transaction succeeds and
leaves the transaction **in** the live table with state `Terminated`;
the active-begin histogram and the set of table keys are unchanged — it
does *not* perform commit's histogram/table cleanup. -/
theorem C4_rollback_keeps_transaction (db : DatabaseInner) (tx_id : Nat)
    (tx : Transaction)
    (hget : getTx db.txs tx_id = some tx) (hact : tx.state = .Active) :
    ∃ db', rollback_tx db tx_id = some db' ∧
      getTx db'.txs tx_id = some { tx with state := .Terminated } ∧
      db'.tx_timestamps = db.tx_timestamps ∧
      db'.txs.map Prod.fst = db.txs.map Prod.fst := by
  have hroll : rollback_tx db tx_id =
      some { db with
        rows := rollbackRows tx_id tx.write_set db.rows
        txs := setTx db.txs tx_id { tx with state := .Terminated } } := by
    unfold rollback_tx
    rw [hget]
    simp [hact]
  exact ⟨_, hroll, alookup_aset_self _ hget, rfl, keys_aset _ _ _⟩

/-- C4, witness: rolling transaction 1 back in `dbInsertActive`. -/
theorem C4_rollback_keeps_transaction_witness :
    ∃ db', rollback_tx dbInsertActive 1 = some db' ∧
      getTx db'.txs 1 =
        some { state := .Terminated, tx_id := 1, begin_ts := 0,
               write_set := [rid11], read_set := [] } ∧
      db'.tx_timestamps = dbInsertActive.tx_timestamps ∧
      db'.txs.map Prod.fst = dbInsertActive.txs.map Prod.fst :=
  C4_rollback_keeps_transaction dbInsertActive 1 _ rfl rfl

/-- C6, amended.  Once a transaction is `Terminated` (as it is after the
synchronous rollback caused by losing a write-write conflict),
`commit_tx` with its TxID returns the `TxTerminated` error — but
`insert` and `read` with its TxID hit the `assert!(state == Active)` and
panic (`none`), and `delete`/`update` panic likewise whenever the target
row exists with a non-empty chain, rather than returning `TxTerminated`. -/
theorem C6_terminated_behavior (db : DatabaseInner) (tx_id : Nat)
    (tx : Transaction)
    (hget : getTx db.txs tx_id = some tx) (hterm : tx.state = .Terminated) :
    db.commit_tx tx_id =
        some (.error .TxTerminated, { db with clock := db.clock + 1 }) ∧
      (∀ row, db.insert tx_id row = none) ∧
      (∀ id, db.read tx_id id = none) ∧
      (∀ id chain, lookupRows db.rows id = some chain → chain ≠ [] →
        db.delete tx_id id = none) ∧
      (∀ row chain, lookupRows db.rows row.id = some chain → chain ≠ [] →
        db.update tx_id row = none) := by
  have hne : tx.state ≠ .Active := by
    rw [hterm]
    intro hh
    cases hh
  have hdel : ∀ id chain, lookupRows db.rows id = some chain → chain ≠ [] →
      db.delete tx_id id = none := by
    intro id chain hchain hch
    have hempty : chain.isEmpty = false := by
      cases chain with
      | nil => exact absurd rfl hch
      | cons a l => rfl
    unfold DatabaseInner.delete
    simp [hchain, hempty, hget, hne]
  refine ⟨?_, ?_, ?_, hdel, ?_⟩
  · unfold DatabaseInner.commit_tx
    simp [hget, hterm]
  · intro row
    unfold DatabaseInner.insert
    simp [hget, hne]
  · intro id
    unfold DatabaseInner.read
    simp [hget, hne]
  · intro row chain hchain hch
    unfold DatabaseInner.update
    rw [hdel row.id chain hchain hch]

/-- A concrete state with a `Terminated` transaction 2 lingering in the
table and a committed row in the store: the state after
`execTrace initialDb [.beginTx, .insert 1 rowA, .commit 1, .beginTx,
.rollback 2]`. -/
def dbTerminated : DatabaseInner :=
  { rows := [(rid11, [{ vbegin := .Timestamp 0, vend := none, row := rowA }])]
    txs := [(2, { state := .Terminated, tx_id := 2, begin_ts := 2,
                  write_set := [], read_set := [] })]
    tx_timestamps := [(2, 1)], tx_ids := 3, clock := 3, storage :=
      [{ tx_timestamp := 1,
         row_versions := [{ vbegin := .Timestamp 0, vend := none, row := rowA }] }] }

/-- Sanity check: `dbTerminated` is reachable. -/
theorem dbTerminated_reachable :
    execTrace initialDb
      [.beginTx, .insert 1 rowA, .commit 1, .beginTx, .rollback 2] =
      some dbTerminated := by
  rfl

/-- C6, witness: in `dbTerminated`, committing transaction 2 yields the
`TxTerminated` error while insert, read and delete panic. -/
theorem C6_terminated_behavior_witness :
    dbTerminated.commit_tx 2 =
        some (.error .TxTerminated, { dbTerminated with clock := 4 }) ∧
      dbTerminated.insert 2 rowB = none ∧
      dbTerminated.read 2 rid11 = none ∧
      dbTerminated.delete 2 rid11 = none := by
  have h := C6_terminated_behavior dbTerminated 2 _ rfl rfl
  exact ⟨h.1, h.2.1 rowB, h.2.2.1 rid11, h.2.2.2.1 rid11 _ rfl (by decide)⟩

/-- C2, amended.  Let B be an active transaction and let a row's chain
hold exactly the version committed by a transaction A that began at
`aBegin` and committed at `cA > aBegin` (after A's commit the version
carries `begin = Timestamp(aBegin)` and `end = None`, per C1).  If
`cA ≤ B.begin_ts` then B's read returns A's write — but the converse
boundary is A's *begin* timestamp, not its commit timestamp: B misses
A's write exactly when `B.begin_ts < aBegin`.  (For `aBegin ≤ B.begin_ts
< cA` the read still returns A's write, refuting the original claim; see
the counterexample.) -/
theorem C2_committed_write_visibility (db : DatabaseInner) (bTx : Nat)
    (tx : Transaction) (id : RowID) (aBegin cA : Nat) (row : Row)
    (hget : getTx db.txs bTx = some tx) (hact : tx.state = .Active)
    (hchain : lookupRows db.rows id =
      some [{ vbegin := .Timestamp aBegin, vend := none, row := row }])
    (hbc : aBegin < cA) :
    (cA ≤ tx.begin_ts → ∃ db', db.read bTx id = some (some row, db')) ∧
      (tx.begin_ts < aBegin → db.read bTx id = some (none, db)) := by
  unfold DatabaseInner.read
  rw [hget]
  simp only [hact, if_pos]
  rw [hchain]
  dsimp only
  constructor
  · intro hle
    have hvis : tx.begin_ts ≥ aBegin := le_trans (Nat.le_of_lt hbc) hle
    have hscan : readScanRev db.txs tx
        ([({ vbegin := .Timestamp aBegin, vend := none, row := row } :
          RowVersion)].reverse) = some (some row) := by
      simp [readScanRev, is_version_visible, is_begin_visible, is_end_visible,
        hvis]
    rw [hscan]
    exact ⟨_, rfl⟩
  · intro hlt
    have hvis : ¬ tx.begin_ts ≥ aBegin := Nat.not_le_of_lt hlt
    have hscan : readScanRev db.txs tx
        ([({ vbegin := .Timestamp aBegin, vend := none, row := row } :
          RowVersion)].reverse) = some none := by
      simp [readScanRev, is_version_visible, is_begin_visible, is_end_visible,
        hvis]
    rw [hscan]

/-- A concrete state for the C2 witness: one committed version of `rowA`
with begin timestamp 0, and an active reader (transaction 2) whose begin
timestamp 2 is at least the writer's commit timestamp 1. -/
def dbC2 : DatabaseInner :=
  { rows := [(rid11, [{ vbegin := .Timestamp 0, vend := none, row := rowA }])]
    txs := [(2, { state := .Active, tx_id := 2, begin_ts := 2,
                  write_set := [], read_set := [] })]
    tx_timestamps := [(2, 1)], tx_ids := 3, clock := 3, storage := [] }

/-- C2, witness: with `aBegin = 0 < cA = 1 ≤ bB = 2`, the reader sees
the committed write. -/
theorem C2_committed_write_visibility_witness :
    (0 : Nat) < 1 ∧
      ∃ db', dbC2.read 2 rid11 = some (some rowA, db') := by
  refine ⟨by decide, ?_⟩
  exact (C2_committed_write_visibility dbC2 2 _ rid11 0 1 rowA rfl rfl rfl
    (by decide)).1 (by decide)

theorem minKey_cons (p : Nat × Nat) (rest : List (Nat × Nat)) :
    minKey (p :: rest) =
      (match minKey rest with
        | none => some p.1
        | some b => some (Nat.min p.1 b)) := rfl

theorem exists_minKey_le (m : List (Nat × Nat)) (e : Nat) :
    (∃ b, minKey m = some b ∧ b ≤ e) ↔ ∃ p ∈ m, p.1 ≤ e := by
  induction m with
  | nil => simp [minKey]
  | cons p rest ih =>
    rw [minKey_cons]
    cases hm : minKey rest with
    | none =>
      have hrest : ¬ ∃ q ∈ rest, q.1 ≤ e := by
        intro hq
        rcases ih.mpr hq with ⟨b, hb, _⟩
        rw [hm] at hb
        cases hb
      constructor
      · rintro ⟨b, hb, hble⟩
        cases hb
        exact ⟨p, List.mem_cons_self _ _, hble⟩
      · rintro ⟨q, hq, hqle⟩
        rcases List.mem_cons.mp hq with heq | hq
        · subst heq
          exact ⟨q.1, rfl, hqle⟩
        · exact absurd ⟨q, hq, hqle⟩ hrest
    | some b =>
      constructor
      · rintro ⟨b', hb', hble⟩
        cases hb'
        have hble' : min p.1 b ≤ e := hble
        rcases min_le_iff.mp hble' with h | h
        · exact ⟨p, List.mem_cons_self _ _, h⟩
        · rcases ih.mp ⟨b, hm, h⟩ with ⟨q, hq, hqle⟩
          exact ⟨q, List.mem_cons_of_mem _ hq, hqle⟩
      · rintro ⟨q, hq, hqle⟩
        refine ⟨Nat.min p.1 b, rfl, ?_⟩
        show min p.1 b ≤ e
        rcases List.mem_cons.mp hq with heq | hq
        · exact min_le_iff.mpr (Or.inl (heq ▸ hqle))
        · rcases ih.mpr ⟨q, hq, hqle⟩ with ⟨b', hb', hble⟩
          rw [hm] at hb'
          cases hb'
          exact min_le_iff.mpr (Or.inr hble)

/-- The retention condition of `drop_unused_row_versions`, phrased the
way the spec phrases it (an existential over the histogram instead of a
comparison with its least key). -/
theorem retainVersion_iff (txs : Txs) (m : List (Nat × Nat)) (rv : RowVersion) :
    retainVersion txs m rv = true ↔
      (rv.vend = none ∨
        (∃ t, rv.vend = some (.TxID t) ∧ (getTx txs t).isNone = true) ∨
        (∃ e, rv.vend = some (.Timestamp e) ∧ ∃ p ∈ m, p.1 ≤ e)) := by
  rcases rv with ⟨vb, vend, row⟩
  cases vend with
  | none => simp [retainVersion]
  | some te =>
    cases te with
    | Timestamp e =>
      simp only [retainVersion]
      cases hm : minKey m with
      | none =>
        have hno : ¬ ∃ p ∈ m, p.1 ≤ e := by
          intro hq
          rcases (exists_minKey_le m e).mpr hq with ⟨b, hb, _⟩
          rw [hm] at hb
          cases hb
        simp only [hm]
        simp
        intro x y hxy
        by_contra hlt
        exact hno ⟨(x, y), hxy, Nat.le_of_not_lt hlt⟩
      | some b =>
        constructor
        · intro hge
          refine Or.inr (Or.inr ⟨e, rfl, ?_⟩)
          exact (exists_minKey_le m e).mp ⟨b, hm, by simpa using hge⟩
        · intro h
          rcases h with h | h | h
          · cases h
          · rcases h with ⟨t, ht, _⟩
            cases ht
          · rcases h with ⟨e2, he2, hex⟩
            cases he2
            rcases (exists_minKey_le m e).mpr hex with ⟨b2, hb2, hble⟩
            rw [hm] at hb2
            cases hb2
            simpa using hble
    | TxID t =>
      simp [retainVersion]

/-- C7, amended.  After `drop_unused_row_versions`, a version `v` of any
row remains in the store iff `v.end == None`, or `v.end == Some(TxID(t))`
with `t` **no longer** in the transaction table (the source's
`!txs.contains_key(&tx_id)` keeps the version exactly when the
transaction is absent, the inverse of both the original claim and the
code's own comment), or `v.end == Some(Timestamp(e))` and some
histogram entry (the begin timestamp of some transaction in the table —
**including lingering `Terminated` ones**, not only active
transactions) is at most `e`; and rows whose chains become empty are
deleted.  The original claim's "there exists an active transaction with
begin_ts ≤ e" fails because rolled-back transactions stay in the
histogram (see the counterexample). -/
theorem C7_gc_retention_amended (db : DatabaseInner) :
    (∀ p ∈ db.rows, ∀ rv ∈ p.2,
      ((∃ q ∈ (drop_unused_row_versions db).rows, q.1 = p.1 ∧ rv ∈ q.2) ↔
        (rv.vend = none ∨
          (∃ t, rv.vend = some (.TxID t) ∧ (getTx db.txs t).isNone = true) ∨
          (∃ e, rv.vend = some (.Timestamp e) ∧
            ∃ h ∈ db.tx_timestamps, h.1 ≤ e)))) ∧
      (∀ q ∈ (drop_unused_row_versions db).rows, q.2 ≠ []) := by
  constructor
  · intro p hp rv hrv
    rw [← retainVersion_iff db.txs db.tx_timestamps rv]
    constructor
    · rintro ⟨q, hq, _, hrvq⟩
      rcases List.mem_filter.mp hq with ⟨hq', _⟩
      rcases List.mem_map.mp hq' with ⟨p₀, _, heq⟩
      subst heq
      exact (List.mem_filter.mp hrvq).2
    · intro hret
      refine ⟨(p.1, p.2.filter (retainVersion db.txs db.tx_timestamps)), ?_, rfl, ?_⟩
      · apply List.mem_filter.mpr
        constructor
        · exact List.mem_map.mpr ⟨p, hp, rfl⟩
        · have hmem : rv ∈ p.2.filter (retainVersion db.txs db.tx_timestamps) :=
            List.mem_filter.mpr ⟨hrv, hret⟩
          cases hfl : p.2.filter (retainVersion db.txs db.tx_timestamps) with
          | nil =>
            rw [hfl] at hmem
            cases hmem
          | cons a l => simp [hfl]
      · exact List.mem_filter.mpr ⟨hrv, hret⟩
  · intro q hq
    rcases List.mem_filter.mp hq with ⟨_, hne⟩
    intro hq2
    rw [hq2] at hne
    simp at hne

/-- C7, witness: in `dbTerminated` the single (current) version of
`rowA` is retained by garbage collection. -/
theorem C7_gc_retention_amended_witness :
    ∃ q ∈ (drop_unused_row_versions dbTerminated).rows, q.1 = rid11 ∧
      ({ vbegin := .Timestamp 0, vend := none, row := rowA } : RowVersion) ∈ q.2 :=
  ((C7_gc_retention_amended dbTerminated).1
      (rid11, [{ vbegin := .Timestamp 0, vend := none, row := rowA }])
      (by decide) _ (by decide)).mpr (Or.inl rfl)

/-- Normal form of the per-version commit rewrite: begin markers owned
by the committing transaction become `Timestamp begin_ts`, end markers
owned by it become `Timestamp end_ts`, everything else is untouched. -/
theorem commitVersion_fst (t b e : Nat) (rv : RowVersion) :
    (commitVersion t b e rv).1 =
      { vbegin := if rv.vbegin = .TxID t then .Timestamp b else rv.vbegin
        vend := if rv.vend = some (.TxID t) then some (.Timestamp e) else rv.vend
        row := rv.row } := by
  unfold commitVersion
  by_cases h1 : rv.vbegin = .TxID t <;> by_cases h2 : rv.vend = some (.TxID t) <;>
    simp [h1, h2]

theorem commitVersion_fst_idem (t b e : Nat) (rv : RowVersion) :
    (commitVersion t b e (commitVersion t b e rv).1).1 =
      (commitVersion t b e rv).1 := by
  rw [commitVersion_fst, commitVersion_fst]
  by_cases h1 : rv.vbegin = .TxID t <;> by_cases h2 : rv.vend = some (.TxID t) <;>
    simp [h1, h2]

theorem commitChain_fst (t b e : Nat) (c : List RowVersion) :
    (commitChain t b e c).1 = c.map (fun rv => (commitVersion t b e rv).1) := by
  induction c with
  | nil => rfl
  | cons rv rest ih => simp [commitChain, ih]

theorem commitChain_fst_idem (t b e : Nat) (c : List RowVersion) :
    (commitChain t b e (commitChain t b e c).1).1 = (commitChain t b e c).1 := by
  rw [commitChain_fst, commitChain_fst, List.map_map]
  exact List.map_eq_map_iff.mpr (fun rv _ => commitVersion_fst_idem t b e rv)

theorem commitFold_cons (t b e : Nat) (a : RowID) (rest : List RowID)
    (rows : Rows) (log : List RowVersion) :
    commitFold t b e (a :: rest) rows log =
      (match lookupRows rows a with
        | none => commitFold t b e rest rows log
        | some chain =>
          commitFold t b e rest (setChain rows a (commitChain t b e chain).1)
            (log ++ (commitChain t b e chain).2)) := rfl

/-- The commit loop rewrites exactly the write-set chains (idempotently,
so duplicate write-set entries are harmless) and leaves every other
chain alone. -/
theorem lookup_commitFold (t b e : Nat) (ws : List RowID) (rows : Rows)
    (log : List RowVersion) (id : RowID) :
    lookupRows (commitFold t b e ws rows log).1 id =
      if id ∈ ws then
        (lookupRows rows id).map (fun c => (commitChain t b e c).1)
      else lookupRows rows id := by
  induction ws generalizing rows log with
  | nil => simp [commitFold]
  | cons a rest ih =>
    rw [commitFold_cons]
    cases hl : lookupRows rows a with
    | none =>
      rw [ih]
      by_cases hmem : id ∈ rest
      · simp [hmem, List.mem_cons]
      · by_cases hia : id = a
        · subst hia
          simp [hmem, hl]
        · simp [hmem, hia]
    | some chain =>
      rw [ih]
      by_cases hia : id = a
      · subst hia
        have hset : lookupRows (setChain rows id (commitChain t b e chain).1) id =
            some (commitChain t b e chain).1 := alookup_aset_self _ hl
        by_cases hmem : id ∈ rest
        · rw [if_pos hmem, hset, if_pos (List.mem_cons_self _ _), hl]
          simp [commitChain_fst_idem]
        · rw [if_neg hmem, hset, if_pos (List.mem_cons_self _ _), hl]
          rfl
      · have hset : lookupRows (setChain rows a (commitChain t b e chain).1) id =
            lookupRows rows id := alookup_aset_ne _ hia
        rw [hset]
        by_cases hmem : id ∈ rest
        · simp [hmem, List.mem_cons]
        · simp [hmem, hia]

/-- C1.  When an active transaction with no versions outside its
write-set rows (spec invariant 6, hypothesis `hown`) commits, every
version whose begin marker was `TxID(tx_id)` gets begin rewritten to
`Timestamp(begin_ts)` (the *begin* timestamp), every version whose end
marker was `Some(TxID(tx_id))` gets end rewritten to
`Some(Timestamp(commit_ts))` with `commit_ts` the clock value read at
the start of `commit_tx`, and every other marker, every payload and
every chain is left exactly as it was. -/
theorem C1_commit_rewrites_markers (db : DatabaseInner) (tx_id : Nat)
    (tx : Transaction)
    (hget : getTx db.txs tx_id = some tx) (hact : tx.state = .Active)
    (hown : ∀ p ∈ db.rows, ∀ rv ∈ p.2,
      (rv.vbegin = .TxID tx_id ∨ rv.vend = some (.TxID tx_id)) →
        p.1 ∈ tx.write_set) :
    ∃ db', db.commit_tx tx_id = some (.ok (), db') ∧
      ∀ id : RowID,
        (lookupRows db.rows id = none → lookupRows db'.rows id = none) ∧
        (∀ chain, lookupRows db.rows id = some chain →
          ∃ chain', lookupRows db'.rows id = some chain' ∧
            ∀ i : Nat, ∀ old, chain[i]? = some old →
              ∃ new, chain'[i]? = some new ∧
                new.row = old.row ∧
                (old.vbegin = .TxID tx_id → new.vbegin = .Timestamp tx.begin_ts) ∧
                (old.vbegin ≠ .TxID tx_id → new.vbegin = old.vbegin) ∧
                (old.vend = some (.TxID tx_id) →
                  new.vend = some (.Timestamp db.clock)) ∧
                (old.vend ≠ some (.TxID tx_id) → new.vend = old.vend)) := by
  refine ⟨{ db with
      rows := (commitFold tx_id tx.begin_ts db.clock tx.write_set db.rows []).1
      txs := removeTx db.txs tx_id
      tx_timestamps := decTs db.tx_timestamps tx.begin_ts
      clock := db.clock + 1
      storage :=
        if (commitFold tx_id tx.begin_ts db.clock tx.write_set db.rows []).2.isEmpty
        then db.storage
        else db.storage ++
          [{ tx_timestamp := db.clock,
             row_versions :=
               (commitFold tx_id tx.begin_ts db.clock tx.write_set db.rows []).2 }] },
    ?_, ?_⟩
  · unfold DatabaseInner.commit_tx
    dsimp only
    rw [hget]
    dsimp only
    rw [hact]
  · intro id
    have hlk := lookup_commitFold tx_id tx.begin_ts db.clock tx.write_set db.rows [] id
    constructor
    · intro hnone
      show lookupRows (commitFold tx_id tx.begin_ts db.clock tx.write_set db.rows []).1 id = none
      rw [hlk]
      by_cases hmem : id ∈ tx.write_set <;> simp [hmem, hnone]
    · intro chain hchain
      by_cases hmem : id ∈ tx.write_set
      · refine ⟨(commitChain tx_id tx.begin_ts db.clock chain).1, ?_, ?_⟩
        · show lookupRows (commitFold tx_id tx.begin_ts db.clock tx.write_set db.rows []).1 id = _
          rw [hlk, if_pos hmem, hchain]
          rfl
        · intro i old hold
          rw [commitChain_fst]
          refine ⟨(commitVersion tx_id tx.begin_ts db.clock old).1, ?_, ?_⟩
          · rw [List.getElem?_map, hold]
            rfl
          · rw [commitVersion_fst]
            refine ⟨rfl, ?_, ?_, ?_, ?_⟩
            · intro h
              simp [h]
            · intro h
              simp [h]
            · intro h
              simp [h]
            · intro h
              simp [h]
      · refine ⟨chain, ?_, ?_⟩
        · show lookupRows (commitFold tx_id tx.begin_ts db.clock tx.write_set db.rows []).1 id = _
          rw [hlk, if_neg hmem, hchain]
        · intro i old hold
          have hmemrv : old ∈ chain := List.getElem?_mem hold
          have hrow : (id, chain) ∈ db.rows := mem_of_alookup hchain
          have hno : ¬(old.vbegin = .TxID tx_id ∨ old.vend = some (.TxID tx_id)) :=
            fun h => hmem (hown (id, chain) hrow old hmemrv h)
          push_neg at hno
          exact ⟨old, hold, rfl, fun h => absurd h hno.1, fun _ => rfl,
            fun h => absurd h hno.2, fun _ => rfl⟩

/-- C1, witness: committing transaction 1 in `dbInsertActive` (where it
has inserted `rowA`) rewrites the version's begin marker. -/
theorem C1_commit_rewrites_markers_witness :
    ∃ db', dbInsertActive.commit_tx 1 = some (.ok (), db') ∧
      ∀ id : RowID,
        (lookupRows dbInsertActive.rows id = none →
          lookupRows db'.rows id = none) ∧
        (∀ chain, lookupRows dbInsertActive.rows id = some chain →
          ∃ chain', lookupRows db'.rows id = some chain' ∧
            ∀ i : Nat, ∀ old, chain[i]? = some old →
              ∃ new, chain'[i]? = some new ∧
                new.row = old.row ∧
                (old.vbegin = .TxID 1 → new.vbegin = .Timestamp 0) ∧
                (old.vbegin ≠ .TxID 1 → new.vbegin = old.vbegin) ∧
                (old.vend = some (.TxID 1) → new.vend = some (.Timestamp 1)) ∧
                (old.vend ≠ some (.TxID 1) → new.vend = old.vend)) :=
  C1_commit_rewrites_markers dbInsertActive 1 _ rfl rfl (by decide)

/-! Development for C8: the at-most-one-current-version invariant. -/

/-- Number of current versions (`end = None`) in a chain. -/
def countNone (c : List RowVersion) : Nat :=
  c.countP (fun rv => rv.vend.isNone)

/-- The guard under which the amended C8 holds, as an executable check:
`begin_tx` is only invoked serially (no `Active` transaction is in the
table) and `insert` only targets rows whose chain holds no current
version. -/
def guardOkb (db : DatabaseInner) : Op → Bool
  | .beginTx => db.txs.all (fun q => decide (q.2.state ≠ .Active))
  | .insert _ r => decide (countNone ((lookupRows db.rows r.id).getD []) = 0)
  | _ => true

/-- A whole trace satisfying `guardOkb` at every step it executes. -/
def Guardedb : DatabaseInner → List Op → Bool
  | _, [] => true
  | db, op :: rest =>
    guardOkb db op &&
      (match exec db op with
        | none => true
        | some db' => Guardedb db' rest)

/-- The inductive invariant carrying the amended C8 through a serial
execution: (1) every chain has at most one current version; (2) every
end timestamp in the store is below the clock; (3) every end timestamp
is at most the begin timestamp of every `Active` transaction; (4) at
most one table entry is `Active`; (5) table keys are below the TxID
counter. -/
def GoodState (db : DatabaseInner) : Prop :=
  (∀ p ∈ db.rows, countNone p.2 ≤ 1) ∧
  (∀ p ∈ db.rows, ∀ rv ∈ p.2, ∀ e, rv.vend = some (.Timestamp e) → e < db.clock) ∧
  (∀ q ∈ db.txs, q.2.state = .Active →
    ∀ p ∈ db.rows, ∀ rv ∈ p.2, ∀ e, rv.vend = some (.Timestamp e) →
      e ≤ q.2.begin_ts) ∧
  (∀ q ∈ db.txs, ∀ q' ∈ db.txs,
    q.2.state = .Active → q'.2.state = .Active → q = q') ∧
  (∀ q ∈ db.txs, q.1 < db.tx_ids)

theorem mem_insertRowSorted {id : RowID} {chain : List RowVersion}
    {rows : Rows} {p : RowID × List RowVersion}
    (h : p ∈ insertRowSorted id chain rows) : p = (id, chain) ∨ p ∈ rows := by
  induction rows with
  | nil =>
    rcases List.mem_cons.mp h with h | h
    · exact Or.inl h
    · cases h
  | cons q rest ih =>
    unfold insertRowSorted at h
    by_cases hlt : rowIDltb id q.1
    · rw [if_pos hlt] at h
      rcases List.mem_cons.mp h with h | h
      · exact Or.inl h
      · exact Or.inr h
    · rw [if_neg hlt] at h
      rcases List.mem_cons.mp h with h | h
      · exact Or.inr (h ▸ List.mem_cons_self _ _)
      · rcases ih h with h | h
        · exact Or.inl h
        · exact Or.inr (List.mem_cons_of_mem _ h)

theorem mem_upsertChain {rows : Rows} {id : RowID} {chain : List RowVersion}
    {p : RowID × List RowVersion}
    (h : p ∈ upsertChain rows id chain) : p = (id, chain) ∨ p ∈ rows := by
  unfold upsertChain at h
  cases hl : lookupRows rows id with
  | none =>
    rw [hl] at h
    exact mem_insertRowSorted h
  | some c =>
    rw [hl] at h
    rcases mem_aset h with h | h
    · exact Or.inl h
    · exact Or.inr h.1

/-- The commit rewrite never changes whether a version is current. -/
theorem commitVersion_vend_isNone (t b e : Nat) (rv : RowVersion) :
    ((commitVersion t b e rv).1).vend.isNone = rv.vend.isNone := by
  rw [commitVersion_fst]
  by_cases h2 : rv.vend = some (.TxID t) <;> simp [h2]

/-- Membership-preservation through the commit loop: a property of
chains that survives the commit rewrite holds of every chain after the
loop if it held of every chain before. -/
theorem commitFold_mem (t b e : Nat) (P : List RowVersion → Prop)
    (hP : ∀ c, P c → P (commitChain t b e c).1) :
    ∀ (ws : List RowID) (rows : Rows) (log : List RowVersion),
      (∀ q ∈ rows, P q.2) →
      ∀ q ∈ (commitFold t b e ws rows log).1, P q.2 := by
  intro ws
  induction ws with
  | nil =>
    intro rows log h q hq
    exact h q hq
  | cons a rest ih =>
    intro rows log h q hq
    rw [commitFold_cons] at hq
    cases hl : lookupRows rows a with
    | none =>
      rw [hl] at hq
      exact ih rows log h q hq
    | some chain =>
      rw [hl] at hq
      refine ih _ _ ?_ q hq
      intro q' hq'
      rcases mem_aset hq' with hq' | hq'
      · rw [hq']
        exact hP chain (h (a, chain) (mem_of_alookup hl))
      · exact h q' hq'.1

/-- Every chain after `rollbackRows` is a sublist of a chain that was
already present. -/
theorem rollbackRows_sublist (tx_id : Nat) :
    ∀ (ws : List RowID) (rows : Rows),
      ∀ q ∈ rollbackRows tx_id ws rows, ∃ p ∈ rows, List.Sublist q.2 p.2 := by
  intro ws
  induction ws with
  | nil =>
    intro rows q hq
    exact ⟨q, hq, List.Sublist.refl _⟩
  | cons a rest ih =>
    intro rows q hq
    unfold rollbackRows at hq
    cases hl : lookupRows rows a with
    | none =>
      rw [hl] at hq
      exact ih rows q hq
    | some chain =>
      rw [hl] at hq
      dsimp only at hq
      by_cases hempty :
          (chain.filter (fun rv => decide (rv.vbegin ≠ .TxID tx_id))).isEmpty
      · rw [if_pos hempty] at hq
        rcases ih _ q hq with ⟨p, hp, hsub⟩
        exact ⟨p, (mem_aremove hp).1, hsub⟩
      · rw [if_neg hempty] at hq
        rcases ih _ q hq with ⟨p, hp, hsub⟩
        rcases mem_aset hp with hp | hp
        · refine ⟨(a, chain), mem_of_alookup hl, ?_⟩
          have : p.2 = chain.filter (fun rv => decide (rv.vbegin ≠ .TxID tx_id)) := by
            rw [hp]
          exact this ▸ hsub |>.trans (List.filter_sublist _)
        · exact ⟨p, hp.1, hsub⟩

/-- Inversion of `DatabaseInner.insert`. -/
theorem insert_inv (db : DatabaseInner) (tx_id : Nat) (row : Row)
    (res : Except DatabaseError Unit × DatabaseInner)
    (h : db.insert tx_id row = some res) :
    res = (.error (.NoSuchTransactionID tx_id), db) ∨
      ∃ tx, getTx db.txs tx_id = some tx ∧ tx.state = .Active ∧
        res = (.ok (), { db with
          rows := upsertChain db.rows row.id
            (((lookupRows db.rows row.id).getD []) ++
              [{ vbegin := .TxID tx.tx_id, vend := none, row := row }])
          txs := setTx db.txs tx_id
            { tx with write_set := insertDedup tx.write_set row.id } }) := by
  unfold DatabaseInner.insert at h
  cases hg : getTx db.txs tx_id with
  | none =>
    rw [hg] at h
    cases h
    exact Or.inl rfl
  | some tx =>
    rw [hg] at h
    dsimp only at h
    by_cases hs : tx.state = .Active
    · rw [if_pos hs] at h
      cases h
      exact Or.inr ⟨tx, rfl, hs, rfl⟩
    · rw [if_neg hs] at h
      cases h

/-- Inversion of `rollback_tx`. -/
theorem rollback_inv (db : DatabaseInner) (tx_id : Nat) (db' : DatabaseInner)
    (h : rollback_tx db tx_id = some db') :
    ∃ tx, getTx db.txs tx_id = some tx ∧ tx.state = .Active ∧
      db' = { db with rows := rollbackRows tx_id tx.write_set db.rows,
                      txs := setTx db.txs tx_id { tx with state := .Terminated } } := by
  unfold rollback_tx at h
  cases hg : getTx db.txs tx_id with
  | none =>
    rw [hg] at h
    cases h
  | some tx =>
    rw [hg] at h
    dsimp only at h
    by_cases hs : tx.state = .Active
    · rw [if_pos hs] at h
      cases h
      exact ⟨tx, rfl, hs, rfl⟩
    · rw [if_neg hs] at h
      cases h

/-- Inversion of `DatabaseInner.delete`. -/
theorem delete_inv (db : DatabaseInner) (tx_id : Nat) (id : RowID)
    (res : Except DatabaseError Bool × DatabaseInner)
    (h : db.delete tx_id id = some res) :
    res = (.ok false, db) ∨
      res = (.error (.NoSuchTransactionID tx_id), db) ∨
      (∃ db₁, rollback_tx db tx_id = some db₁ ∧
        res = (.error .WriteWriteConflict, db₁)) ∨
      (∃ tx chain rev', getTx db.txs tx_id = some tx ∧ tx.state = .Active ∧
        lookupRows db.rows id = some chain ∧
        deleteScanRev db.txs tx chain.reverse = some (.marked rev') ∧
        res = (.ok true, { db with
          rows := setChain db.rows id rev'.reverse
          txs := setTx db.txs tx_id
            { tx with write_set := insertDedup tx.write_set id } })) := by
  unfold DatabaseInner.delete at h
  cases hl : lookupRows db.rows id with
  | none =>
    rw [hl] at h
    cases h
    exact Or.inl rfl
  | some chain =>
    rw [hl] at h
    dsimp only at h
    by_cases hempty : chain.isEmpty
    · rw [if_pos hempty] at h
      cases h
      exact Or.inl rfl
    · rw [if_neg hempty] at h
      cases hg : getTx db.txs tx_id with
      | none =>
        rw [hg] at h
        cases h
        exact Or.inr (Or.inl rfl)
      | some tx =>
        rw [hg] at h
        dsimp only at h
        by_cases hs : tx.state = .Active
        · rw [if_pos hs] at h
          cases hscan : deleteScanRev db.txs tx chain.reverse with
          | none =>
            rw [hscan] at h
            cases h
          | some o =>
            rw [hscan] at h
            cases o with
            | conflict =>
              dsimp only at h
              cases hr : rollback_tx db tx_id with
              | none =>
                rw [hr] at h
                cases h
              | some db₁ =>
                rw [hr] at h
                cases h
                exact Or.inr (Or.inr (Or.inl ⟨db₁, rfl, rfl⟩))
            | missed =>
              cases h
              exact Or.inl rfl
            | marked rev' =>
              cases h
              exact Or.inr (Or.inr (Or.inr ⟨tx, chain, rev', rfl, hs, rfl, hscan, rfl⟩))
        · rw [if_neg hs] at h
          cases h

/-- Inversion of `DatabaseInner.commit_tx`. -/
theorem commit_inv (db : DatabaseInner) (tx_id : Nat)
    (res : Except DatabaseError Unit × DatabaseInner)
    (h : db.commit_tx tx_id = some res) :
    (∃ tx, getTx db.txs tx_id = some tx ∧ tx.state = .Terminated ∧
      res = (.error .TxTerminated, { db with clock := db.clock + 1 })) ∨
      (∃ tx, getTx db.txs tx_id = some tx ∧ tx.state = .Active ∧
        res = (.ok (), { db with
          rows := (commitFold tx_id tx.begin_ts db.clock tx.write_set db.rows []).1
          txs := removeTx db.txs tx_id
          tx_timestamps := decTs db.tx_timestamps tx.begin_ts
          clock := db.clock + 1
          storage :=
            if (commitFold tx_id tx.begin_ts db.clock tx.write_set db.rows []).2.isEmpty
            then db.storage
            else db.storage ++
              [{ tx_timestamp := db.clock,
                 row_versions :=
                   (commitFold tx_id tx.begin_ts db.clock tx.write_set db.rows []).2 }] })) := by
  unfold DatabaseInner.commit_tx at h
  dsimp only at h
  cases hg : getTx db.txs tx_id with
  | none =>
    rw [hg] at h
    cases h
  | some tx =>
    rw [hg] at h
    dsimp only at h
    cases hs : tx.state with
    | Terminated =>
      rw [hs] at h
      cases h
      exact Or.inl ⟨tx, rfl, hs, rfl⟩
    | Active =>
      rw [hs] at h
      cases h
      exact Or.inr ⟨tx, rfl, hs, rfl⟩
    | Preparing =>
      rw [hs] at h
      cases h
    | Committed =>
      rw [hs] at h
      cases h
    | Aborted =>
      rw [hs] at h
      cases h

/-- A version that passes the conflict check and is then found visible
is either current or carries an end timestamp above the observer's
begin timestamp (an end marker owned by an active transaction would
either be a conflict or make the version invisible to its owner). -/
theorem visible_not_conflict_vend (txs : Txs) (tx : Transaction) (rv : RowVersion)
    (hconf : is_write_write_conflict txs tx rv = some false)
    (hvis : is_version_visible txs tx rv = some true) :
    rv.vend = none ∨ ∃ e, rv.vend = some (.Timestamp e) ∧ tx.begin_ts < e := by
  have hend : is_end_visible txs tx rv = some true := by
    unfold is_version_visible at hvis
    cases hb : is_begin_visible txs tx rv with
    | none =>
      rw [hb] at hvis
      cases hvis
    | some b =>
      rw [hb] at hvis
      cases b with
      | false => cases hvis
      | true => exact hvis
  cases hv : rv.vend with
  | none => exact Or.inl rfl
  | some te =>
    cases te with
    | Timestamp e =>
      refine Or.inr ⟨e, rfl, ?_⟩
      unfold is_end_visible at hend
      rw [hv] at hend
      simpa using hend
    | TxID te =>
      unfold is_write_write_conflict at hconf
      unfold is_end_visible at hend
      rw [hv] at hconf hend
      dsimp only at hconf hend
      cases hg : getTx txs te with
      | none =>
        rw [hg] at hconf
        cases hconf
      | some t' =>
        rw [hg] at hconf hend
        dsimp only at hconf hend
        cases hs : t'.state with
        | Active =>
          rw [hs] at hconf hend
          dsimp only at hconf hend
          have h1 : tx.tx_id = t'.tx_id := by simpa using hconf
          have h2 : tx.tx_id ≠ t'.tx_id := by simpa using hend
          exact absurd h1 h2
        | Preparing =>
          rw [hs] at hconf
          dsimp only at hconf
          cases hconf
        | Committed =>
          rw [hs] at hconf
          dsimp only at hconf
          cases hconf
        | Aborted =>
          rw [hs] at hconf
          dsimp only at hconf
          cases hconf
        | Terminated =>
          rw [hs] at hconf
          dsimp only at hconf
          cases hconf

/-- What the delete scan does to a chain: it end-marks one version with
the deleter's TxID and keeps the rest, never increasing the number of
current versions — and decreasing it by exactly one whenever every end
timestamp in the chain is at most the deleter's begin timestamp. -/
theorem deleteScanRev_marked (txs : Txs) (tx : Transaction) :
    ∀ rvs rvs' : List RowVersion,
      deleteScanRev txs tx rvs = some (.marked rvs') →
      (∀ rv' ∈ rvs', rv' ∈ rvs ∨ rv'.vend = some (.TxID tx.tx_id)) ∧
        countNone rvs' ≤ countNone rvs ∧
        ((∀ rv ∈ rvs, ∀ e, rv.vend = some (.Timestamp e) → e ≤ tx.begin_ts) →
          countNone rvs' + 1 = countNone rvs) := by
  intro rvs
  induction rvs with
  | nil =>
    intro rvs' h
    cases h
  | cons rv rest ih =>
    intro rvs' h
    unfold deleteScanRev at h
    cases hconf : is_write_write_conflict txs tx rv with
    | none =>
      rw [hconf] at h
      cases h
    | some cb =>
      rw [hconf] at h
      cases cb with
      | true => cases h
      | false =>
        dsimp only at h
        cases hvis : is_version_visible txs tx rv with
        | none =>
          rw [hvis] at h
          cases h
        | some vb =>
          rw [hvis] at h
          cases vb with
          | true =>
            cases h
            refine ⟨?_, ?_, ?_⟩
            · intro rv' hrv'
              rcases List.mem_cons.mp hrv' with hrv' | hrv'
              · right
                rw [hrv']
              · exact Or.inl (List.mem_cons_of_mem _ hrv')
            · show countNone _ ≤ countNone (rv :: rest)
              rw [countNone, countNone, List.countP_cons, List.countP_cons]
              cases hrvn : rv.vend.isNone <;> simp [hrvn]
            · intro hH
              rcases visible_not_conflict_vend txs tx rv hconf hvis with hv | hv
              · show countNone _ + 1 = countNone (rv :: rest)
                rw [countNone, countNone, List.countP_cons, List.countP_cons, hv]
                simp
              · rcases hv with ⟨e, he, hlt⟩
                have := hH rv (List.mem_cons_self _ _) e he
                omega
          | false =>
            dsimp only at h
            cases hrec : deleteScanRev txs tx rest with
            | none =>
              rw [hrec] at h
              cases h
            | some o =>
              rw [hrec] at h
              cases o with
              | conflict => cases h
              | missed => cases h
              | marked rest' =>
                cases h
                rcases ih rest' hrec with ⟨hmem, hle, hstrict⟩
                refine ⟨?_, ?_, ?_⟩
                · intro rv' hrv'
                  rcases List.mem_cons.mp hrv' with hrv' | hrv'
                  · exact Or.inl (hrv' ▸ List.mem_cons_self _ _)
                  · rcases hmem rv' hrv' with hm | hm
                    · exact Or.inl (List.mem_cons_of_mem _ hm)
                    · exact Or.inr hm
                · show countNone (rv :: rest') ≤ countNone (rv :: rest)
                  rw [countNone, countNone, List.countP_cons, List.countP_cons]
                  have hle' : countNone rest' ≤ countNone rest := hle
                  rw [countNone, countNone] at hle'
                  cases hrvn : rv.vend.isNone <;> simp [hrvn] <;> omega
                · intro hH
                  have hH' : ∀ rv₀ ∈ rest, ∀ e, rv₀.vend = some (.Timestamp e) →
                      e ≤ tx.begin_ts :=
                    fun rv₀ h₀ e he => hH rv₀ (List.mem_cons_of_mem _ h₀) e he
                  have heq := hstrict hH'
                  show countNone (rv :: rest') + 1 = countNone (rv :: rest)
                  rw [countNone, countNone, List.countP_cons, List.countP_cons]
                  rw [countNone, countNone] at heq
                  cases hrvn : rv.vend.isNone <;> simp [hrvn] <;> omega

/-- Overwriting the unique active transaction's entry (with the same
begin timestamp) preserves the transaction-table side of `GoodState`. -/
theorem setTx_preserves_txs (txs : Txs) (tx_ids tx_id : Nat) (tx tx' : Transaction)
    (hget : alookup txs tx_id = some tx) (hact : tx.state = .Active)
    (hbts : tx'.begin_ts = tx.begin_ts)
    (hG4 : ∀ q ∈ txs, ∀ q' ∈ txs, q.2.state = .Active → q'.2.state = .Active → q = q')
    (hG5 : ∀ q ∈ txs, q.1 < tx_ids) :
    (∀ q ∈ aset txs tx_id tx', ∀ q' ∈ aset txs tx_id tx',
      q.2.state = .Active → q'.2.state = .Active → q = q') ∧
      (∀ q ∈ aset txs tx_id tx', q.1 < tx_ids) ∧
      (∀ q ∈ aset txs tx_id tx', q.2.state = .Active →
        ∃ q₀ ∈ txs, q₀.2.state = .Active ∧ q₀.2.begin_ts = q.2.begin_ts) := by
  have hmemtx : (tx_id, tx) ∈ txs := mem_of_alookup hget
  refine ⟨?_, ?_, ?_⟩
  · intro q hq q' hq' ha ha'
    rcases mem_aset hq with hq | hq <;> rcases mem_aset hq' with hq' | hq'
    · rw [hq, hq']
    · exfalso
      rw [hq] at ha
      have := hG4 (tx_id, tx) hmemtx q' hq'.1 hact ha'
      exact hq'.2 (by rw [← this])
    · exfalso
      rw [hq'] at ha'
      have := hG4 (tx_id, tx) hmemtx q hq.1 hact ha
      exact hq.2 (by rw [← this])
    · exact hG4 q hq.1 q' hq'.1 ha ha'
  · intro q hq
    rcases mem_aset hq with hq | hq
    · rw [hq]
      exact hG5 (tx_id, tx) hmemtx
    · exact hG5 q hq.1
  · intro q hq ha
    rcases mem_aset hq with hq | hq
    · refine ⟨(tx_id, tx), hmemtx, hact, ?_⟩
      rw [hq]
      exact hbts.symm
    · exact ⟨q, hq.1, ha, rfl⟩

theorem begin_preserves_good (db : DatabaseInner)
    (hgood : GoodState db)
    (hguard : db.txs.all (fun q => decide (q.2.state ≠ .Active)) = true) :
    GoodState (begin_tx db).2 := by
  obtain ⟨hG1, hG2, hG3, hG4, hG5⟩ := hgood
  have hnoact : ∀ q ∈ db.txs, q.2.state ≠ .Active := by
    intro q hq
    simpa using List.all_eq_true.mp hguard q hq
  refine ⟨?_, ?_, ?_, ?_, ?_⟩
  · intro p hp
    exact hG1 p hp
  · intro p hp rv hrv e he
    exact Nat.lt_succ_of_lt (hG2 p hp rv hrv e he)
  · intro q hq ha p hp rv hrv e he
    rcases List.mem_cons.mp hq with hq | hq
    · rw [hq]
      exact Nat.le_of_lt (hG2 p hp rv hrv e he)
    · exact absurd ha (hnoact q hq)
  · intro q hq q' hq' ha ha'
    rcases List.mem_cons.mp hq with hq | hq
    · rcases List.mem_cons.mp hq' with hq' | hq'
      · rw [hq, hq']
      · exact absurd ha' (hnoact q' hq')
    · exact absurd ha (hnoact q hq)
  · intro q hq
    rcases List.mem_cons.mp hq with hq | hq
    · rw [hq]
      exact Nat.lt_succ_self _
    · exact Nat.lt_succ_of_lt (hG5 q hq)

theorem gc_preserves_good (db : DatabaseInner) (hgood : GoodState db) :
    GoodState (drop_unused_row_versions db) := by
  obtain ⟨hG1, hG2, hG3, hG4, hG5⟩ := hgood
  have hmem : ∀ p ∈ (drop_unused_row_versions db).rows,
      ∃ p₀ ∈ db.rows, p.2 =
        p₀.2.filter (retainVersion db.txs db.tx_timestamps) ∧ p.1 = p₀.1 := by
    intro p hp
    rcases List.mem_filter.mp hp with ⟨hp', _⟩
    rcases List.mem_map.mp hp' with ⟨p₀, hp₀, heq⟩
    exact ⟨p₀, hp₀, by rw [← heq], by rw [← heq]⟩
  refine ⟨?_, ?_, ?_, hG4, hG5⟩
  · intro p hp
    rcases hmem p hp with ⟨p₀, hp₀, heq, _⟩
    rw [heq]
    exact le_trans ((List.filter_sublist _).countP_le _) (hG1 p₀ hp₀)
  · intro p hp rv hrv e he
    rcases hmem p hp with ⟨p₀, hp₀, heq, _⟩
    rw [heq] at hrv
    exact hG2 p₀ hp₀ rv (List.mem_filter.mp hrv).1 e he
  · intro q hq ha p hp rv hrv e he
    rcases hmem p hp with ⟨p₀, hp₀, heq, _⟩
    rw [heq] at hrv
    exact hG3 q hq ha p₀ hp₀ rv (List.mem_filter.mp hrv).1 e he

theorem insert_preserves_good (db : DatabaseInner) (tx_id : Nat) (row : Row)
    (res : Except DatabaseError Unit × DatabaseInner)
    (hgood : GoodState db)
    (hguard : countNone ((lookupRows db.rows row.id).getD []) = 0)
    (h : db.insert tx_id row = some res) : GoodState res.2 := by
  rcases insert_inv db tx_id row res h with heq | ⟨tx, hget, hact, heq⟩
  · rw [heq]
    exact hgood
  · rw [heq]
    obtain ⟨hG1, hG2, hG3, hG4, hG5⟩ := hgood
    have hchain0 : ∀ rv ∈ (lookupRows db.rows row.id).getD [],
        ∃ p ∈ db.rows, rv ∈ p.2 := by
      cases hl : lookupRows db.rows row.id with
      | none =>
        intro rv hrv
        simp at hrv
      | some c =>
        intro rv hrv
        exact ⟨(row.id, c), mem_of_alookup hl, by simpa using hrv⟩
    have hrows : ∀ p ∈ upsertChain db.rows row.id
        (((lookupRows db.rows row.id).getD []) ++
          [{ vbegin := .TxID tx.tx_id, vend := none, row := row }]),
        p = (row.id, ((lookupRows db.rows row.id).getD []) ++
          [{ vbegin := .TxID tx.tx_id, vend := none, row := row }]) ∨
          p ∈ db.rows := fun p hp => mem_upsertChain hp
    obtain ⟨hT4, hT5, hT3⟩ := setTx_preserves_txs db.txs db.tx_ids tx_id tx
      { tx with write_set := insertDedup tx.write_set row.id } hget hact rfl hG4 hG5
    refine ⟨?_, ?_, ?_, hT4, hT5⟩
    · intro p hp
      rcases hrows p hp with hp | hp
      · rw [hp]
        show countNone (_ ++ [_]) ≤ 1
        rw [countNone, List.countP_append]
        have : countNone ((lookupRows db.rows row.id).getD []) = 0 := hguard
        rw [countNone] at this
        simp [this]
      · exact hG1 p hp
    · intro p hp rv hrv e he
      rcases hrows p hp with hp | hp
      · rw [hp] at hrv
        rcases List.mem_append.mp hrv with hrv | hrv
        · rcases hchain0 rv hrv with ⟨p₀, hp₀, hrv₀⟩
          exact hG2 p₀ hp₀ rv hrv₀ e he
        · rcases List.mem_cons.mp hrv with hrv | hrv
          · rw [hrv] at he
            cases he
          · cases hrv
      · exact hG2 p hp rv hrv e he
    · intro q hq ha p hp rv hrv e he
      rcases hT3 q hq ha with ⟨q₀, hq₀, ha₀, hbts₀⟩
      rw [← hbts₀]
      rcases hrows p hp with hp | hp
      · rw [hp] at hrv
        rcases List.mem_append.mp hrv with hrv | hrv
        · rcases hchain0 rv hrv with ⟨p₀, hp₀, hrv₀⟩
          exact hG3 q₀ hq₀ ha₀ p₀ hp₀ rv hrv₀ e he
        · rcases List.mem_cons.mp hrv with hrv | hrv
          · rw [hrv] at he
            cases he
          · cases hrv
      · exact hG3 q₀ hq₀ ha₀ p hp rv hrv e he

theorem rollback_preserves_good (db : DatabaseInner) (tx_id : Nat)
    (db' : DatabaseInner) (hgood : GoodState db)
    (h : rollback_tx db tx_id = some db') : GoodState db' := by
  rcases rollback_inv db tx_id db' h with ⟨tx, hget, hact, heq⟩
  rw [heq]
  obtain ⟨hG1, hG2, hG3, hG4, hG5⟩ := hgood
  obtain ⟨hT4, hT5, hT3⟩ := setTx_preserves_txs db.txs db.tx_ids tx_id tx
    { tx with state := .Terminated } hget hact rfl hG4 hG5
  have hrows : ∀ p ∈ rollbackRows tx_id tx.write_set db.rows,
      ∃ p₀ ∈ db.rows, List.Sublist p.2 p₀.2 :=
    rollbackRows_sublist tx_id tx.write_set db.rows
  refine ⟨?_, ?_, ?_, hT4, hT5⟩
  · intro p hp
    rcases hrows p hp with ⟨p₀, hp₀, hsub⟩
    exact le_trans (hsub.countP_le _) (hG1 p₀ hp₀)
  · intro p hp rv hrv e he
    rcases hrows p hp with ⟨p₀, hp₀, hsub⟩
    exact hG2 p₀ hp₀ rv (hsub.subset hrv) e he
  · intro q hq ha p hp rv hrv e he
    rcases hT3 q hq ha with ⟨q₀, hq₀, ha₀, hbts₀⟩
    rw [← hbts₀]
    rcases hrows p hp with ⟨p₀, hp₀, hsub⟩
    exact hG3 q₀ hq₀ ha₀ p₀ hp₀ rv (hsub.subset hrv) e he

theorem delete_preserves_good (db : DatabaseInner) (tx_id : Nat) (id : RowID)
    (res : Except DatabaseError Bool × DatabaseInner)
    (hgood : GoodState db)
    (h : db.delete tx_id id = some res) : GoodState res.2 := by
  rcases delete_inv db tx_id id res h with heq | heq | ⟨db₁, hroll, heq⟩ |
    ⟨tx, chain, rev', hget, hact, hl, hscan, heq⟩
  · rw [heq]
    exact hgood
  · rw [heq]
    exact hgood
  · rw [heq]
    exact rollback_preserves_good db tx_id db₁ hgood hroll
  · rw [heq]
    obtain ⟨hG1, hG2, hG3, hG4, hG5⟩ := hgood
    obtain ⟨hmem, hle, _⟩ := deleteScanRev_marked db.txs tx chain.reverse rev' hscan
    have hchmem : (id, chain) ∈ db.rows := mem_of_alookup hl
    have hmem' : ∀ rv' ∈ rev'.reverse,
        rv' ∈ chain ∨ rv'.vend = some (.TxID tx.tx_id) := by
      intro rv' hrv'
      rcases hmem rv' (List.mem_reverse.mp hrv') with hm | hm
      · exact Or.inl (List.mem_reverse.mp hm)
      · exact Or.inr hm
    have hcnt : countNone rev'.reverse ≤ countNone chain := by
      rw [countNone, List.countP_reverse]
      have h2 : countNone chain.reverse = countNone chain := by
        rw [countNone, List.countP_reverse]
        rfl
      rw [countNone] at h2 ⊢
      calc rev'.countP (fun rv => rv.vend.isNone) ≤
          chain.reverse.countP (fun rv => rv.vend.isNone) := hle
        _ = chain.countP (fun rv => rv.vend.isNone) := h2
    have hrows : ∀ p ∈ setChain db.rows id rev'.reverse,
        p = (id, rev'.reverse) ∨ p ∈ db.rows := by
      intro p hp
      rcases mem_aset hp with hp | hp
      · exact Or.inl hp
      · exact Or.inr hp.1
    obtain ⟨hT4, hT5, hT3⟩ := setTx_preserves_txs db.txs db.tx_ids tx_id tx
      { tx with write_set := insertDedup tx.write_set id } hget hact rfl hG4 hG5
    refine ⟨?_, ?_, ?_, hT4, hT5⟩
    · intro p hp
      rcases hrows p hp with hp | hp
      · rw [hp]
        exact le_trans hcnt (hG1 (id, chain) hchmem)
      · exact hG1 p hp
    · intro p hp rv hrv e he
      rcases hrows p hp with hp | hp
      · rw [hp] at hrv
        rcases hmem' rv hrv with hm | hm
        · exact hG2 (id, chain) hchmem rv hm e he
        · rw [hm] at he
          cases he
      · exact hG2 p hp rv hrv e he
    · intro q hq ha p hp rv hrv e he
      rcases hT3 q hq ha with ⟨q₀, hq₀, ha₀, hbts₀⟩
      rw [← hbts₀]
      rcases hrows p hp with hp | hp
      · rw [hp] at hrv
        rcases hmem' rv hrv with hm | hm
        · exact hG3 q₀ hq₀ ha₀ (id, chain) hchmem rv hm e he
        · rw [hm] at he
          cases he
      · exact hG3 q₀ hq₀ ha₀ p hp rv hrv e he

theorem countNone_commitChain (t b e : Nat) (c : List RowVersion) :
    countNone (commitChain t b e c).1 = countNone c := by
  unfold countNone
  rw [commitChain_fst, List.countP_map]
  induction c with
  | nil => rfl
  | cons rv rest ih =>
    rw [List.countP_cons, List.countP_cons, ih]
    have h := commitVersion_vend_isNone t b e rv
    simp only [Function.comp_apply]
    simp [h]

theorem commit_preserves_good (db : DatabaseInner) (tx_id : Nat)
    (res : Except DatabaseError Unit × DatabaseInner)
    (hgood : GoodState db)
    (h : db.commit_tx tx_id = some res) : GoodState res.2 := by
  rcases commit_inv db tx_id res h with ⟨tx, hget, hterm, heq⟩ |
    ⟨tx, hget, hact, heq⟩
  · rw [heq]
    obtain ⟨hG1, hG2, hG3, hG4, hG5⟩ := hgood
    exact ⟨hG1, fun p hp rv hrv e he => Nat.lt_succ_of_lt (hG2 p hp rv hrv e he),
      hG3, hG4, hG5⟩
  · rw [heq]
    obtain ⟨hG1, hG2, hG3, hG4, hG5⟩ := hgood
    have hnoact : ∀ q ∈ removeTx db.txs tx_id, ¬ q.2.state = .Active := by
      intro q hq ha
      have h1 := mem_aremove hq
      have h2 := hG4 (tx_id, tx) (mem_of_alookup hget) q h1.1 hact ha
      exact h1.2 (by rw [← h2])
    refine ⟨?_, ?_, ?_, ?_, ?_⟩
    · refine commitFold_mem tx_id tx.begin_ts db.clock
        (fun c => countNone c ≤ 1) ?_ tx.write_set db.rows [] hG1
      intro c hc
      rw [countNone_commitChain]
      exact hc
    · refine commitFold_mem tx_id tx.begin_ts db.clock
        (fun c => ∀ rv ∈ c, ∀ e, rv.vend = some (.Timestamp e) →
          e < db.clock + 1) ?_ tx.write_set db.rows []
        (fun p hp rv hrv e he => Nat.lt_succ_of_lt (hG2 p hp rv hrv e he))
      intro c hc rv' hrv' e he
      rw [commitChain_fst] at hrv'
      rcases List.mem_map.mp hrv' with ⟨rv, hrv, hrveq⟩
      rw [commitVersion_fst] at hrveq
      by_cases h2 : rv.vend = some (.TxID tx_id)
      · rw [← hrveq] at he
        simp only [h2, if_pos] at he
        cases he
        exact Nat.lt_succ_self _
      · rw [← hrveq] at he
        simp only [h2, if_neg, if_false] at he
        exact hc rv hrv e he
    · intro q hq ha
      exact absurd ha (hnoact q hq)
    · intro q hq q' hq' ha ha'
      exact hG4 q (mem_aremove hq).1 q' (mem_aremove hq').1 ha ha'
    · intro q hq
      exact hG5 q (mem_aremove hq).1

/-- The insert inside a successful `update` automatically satisfies the
insert guard: the delete just end-marked the chain's unique current
version, so `update` preserves `GoodState` with no guard of its own. -/
theorem update_preserves_good (db : DatabaseInner) (tx_id : Nat) (row : Row)
    (res : Except DatabaseError Bool × DatabaseInner)
    (hgood : GoodState db)
    (h : db.update tx_id row = some res) : GoodState res.2 := by
  unfold DatabaseInner.update at h
  cases hdel : db.delete tx_id row.id with
  | none =>
    rw [hdel] at h
    cases h
  | some dres =>
    rw [hdel] at h
    have hgood₁ : GoodState dres.2 :=
      delete_preserves_good db tx_id row.id dres hgood hdel
    rcases dres with ⟨er, db₁⟩
    rcases er with e | bv
    · cases h
      exact hgood₁
    · cases bv with
      | false =>
        cases h
        exact hgood₁
      | true =>
        dsimp only at h
        rcases delete_inv db tx_id row.id (.ok true, db₁) hdel with heq | heq |
          ⟨db₂, _, heq⟩ | ⟨tx, chain, rev', hget, hact, hl, hscan, heq⟩
        · cases heq
        · cases heq
        · cases heq
        · obtain ⟨hG1, hG2, hG3, hG4, hG5⟩ := hgood
          have hdb₁ : db₁ = { db with
              rows := setChain db.rows row.id rev'.reverse
              txs := setTx db.txs tx_id
                { tx with write_set := insertDedup tx.write_set row.id } } := by
            have := congrArg Prod.snd heq
            simpa using this
          obtain ⟨_, _, hstrict⟩ :=
            deleteScanRev_marked db.txs tx chain.reverse rev' hscan
          have hchmem : (row.id, chain) ∈ db.rows := mem_of_alookup hl
          have hH : ∀ rv ∈ chain.reverse, ∀ e,
              rv.vend = some (.Timestamp e) → e ≤ tx.begin_ts := by
            intro rv hrv e he
            exact hG3 (tx_id, tx) (mem_of_alookup hget) hact (row.id, chain)
              hchmem rv (List.mem_reverse.mp hrv) e he
          have hcnt := hstrict hH
          have hchainle : countNone chain ≤ 1 := hG1 (row.id, chain) hchmem
          have hrevchain : countNone chain.reverse = countNone chain := by
            unfold countNone
            exact List.countP_reverse _ _
          have hrev0 : countNone rev' = 0 := by omega
          have hguard₁ : countNone ((lookupRows db₁.rows row.id).getD []) = 0 := by
            rw [hdb₁]
            have hset : lookupRows (setChain db.rows row.id rev'.reverse) row.id =
                some rev'.reverse := alookup_aset_self _ hl
            rw [show lookupRows ({ db with
                rows := setChain db.rows row.id rev'.reverse
                txs := setTx db.txs tx_id
                  { tx with write_set := insertDedup tx.write_set row.id } } :
                  DatabaseInner).rows row.id = some rev'.reverse from hset]
            show countNone rev'.reverse = 0
            unfold countNone
            rw [List.countP_reverse]
            exact hrev0
          cases hins : db₁.insert tx_id row with
          | none =>
            rw [hins] at h
            cases h
          | some ires =>
            rw [hins] at h
            have hgood₂ : GoodState ires.2 :=
              insert_preserves_good db₁ tx_id row ires hgood₁ hguard₁ hins
            rcases ires with ⟨er₂, db₂⟩
            rcases er₂ with e₂ | u₂
            · cases h
              exact hgood₂
            · cases h
              exact hgood₂

theorem exec_preserves_good (db : DatabaseInner) (op : Op) (db' : DatabaseInner)
    (hgood : GoodState db) (hguard : guardOkb db op = true)
    (hexec : exec db op = some db') : GoodState db' := by
  cases op with
  | beginTx =>
    cases hexec
    exact begin_preserves_good db hgood hguard
  | insert t r =>
    have h : (db.insert t r).map (·.2) = some db' := hexec
    cases hins : db.insert t r with
    | none =>
      rw [hins] at h
      cases h
    | some res =>
      rw [hins] at h
      cases h
      exact insert_preserves_good db t r res hgood (of_decide_eq_true hguard) hins
  | update t r =>
    have h : (db.update t r).map (·.2) = some db' := hexec
    cases hu : db.update t r with
    | none =>
      rw [hu] at h
      cases h
    | some res =>
      rw [hu] at h
      cases h
      exact update_preserves_good db t r res hgood hu
  | delete t i =>
    have h : (db.delete t i).map (·.2) = some db' := hexec
    cases hd : db.delete t i with
    | none =>
      rw [hd] at h
      cases h
    | some res =>
      rw [hd] at h
      cases h
      exact delete_preserves_good db t i res hgood hd
  | commit t =>
    have h : (db.commit_tx t).map (·.2) = some db' := hexec
    cases hc : db.commit_tx t with
    | none =>
      rw [hc] at h
      cases h
    | some res =>
      rw [hc] at h
      cases h
      exact commit_preserves_good db t res hgood hc
  | rollback t =>
    exact rollback_preserves_good db t db' hgood hexec
  | gc =>
    cases hexec
    exact gc_preserves_good db hgood

theorem execTrace_preserves_good (ops : List Op) :
    ∀ db db' : DatabaseInner, GoodState db → Guardedb db ops = true →
      execTrace db ops = some db' → GoodState db' := by
  induction ops with
  | nil =>
    intro db db' hg _ he
    cases he
    exact hg
  | cons op rest ih =>
    intro db db' hg hgd he
    unfold Guardedb at hgd
    rw [Bool.and_eq_true] at hgd
    unfold execTrace at he
    cases hx : exec db op with
    | none =>
      rw [hx] at he
      cases he
    | some db₁ =>
      rw [hx] at he
      have hg₁ := exec_preserves_good db op db₁ hg hgd.1 hx
      have hgd₁ : Guardedb db₁ rest = true := by
        have h2 := hgd.2
        rw [hx] at h2
        exact h2
      exact ih db₁ db' hg₁ hgd₁ he

theorem goodState_initial : GoodState initialDb := by
  refine ⟨?_, ?_, ?_, ?_, ?_⟩ <;> simp [initialDb, GoodState]

/-- C8, amended.  Starting from the empty database, run any sequence of
`begin_tx`, `insert`, `update`, `delete`, `commit_tx`, `rollback_tx`
and GC calls that completes without panicking, subject to two guards
(`Guardedb`): `begin_tx` is only invoked while no `Active` transaction
is in the table (serial transactions), and every explicit `insert`
targets a row whose chain currently holds no `end = None` version.
Then every row's chain holds at most one version with `end = None`.
Without the insert guard the property fails — `insert` appends
unconditionally, so two inserts of the same RowID by one transaction
yield two current versions (see the counterexample) — and without
serial transactions it fails as well, because a transaction whose
snapshot is stale can end-mark an old version while missing the
newest current one. -/
theorem C8_at_most_one_current_amended (ops : List Op) (db' : DatabaseInner)
    (hguard : Guardedb initialDb ops = true)
    (hexec : execTrace initialDb ops = some db') :
    ∀ p ∈ db'.rows, countNone p.2 ≤ 1 :=
  (execTrace_preserves_good ops initialDb db' goodState_initial hguard hexec).1

/-- The final state of the trace used by the C8 witness. -/
def dbC8Final : DatabaseInner :=
  { rows := [(rid11,
      [{ vbegin := .Timestamp 0, vend := some (.Timestamp 3), row := rowA },
       { vbegin := .Timestamp 2, vend := none, row := rowB }])]
    txs := [], tx_timestamps := [], tx_ids := 3, clock := 4
    storage :=
      [{ tx_timestamp := 1,
         row_versions := [{ vbegin := .Timestamp 0, vend := none, row := rowA }] },
       { tx_timestamp := 3,
         row_versions :=
           [{ vbegin := .Timestamp 0, vend := some (.Timestamp 3), row := rowA },
            { vbegin := .Timestamp 2, vend := none, row := rowB }] }] }

/-- C8, witness: a guarded serial trace (insert, commit, then an update
by a second transaction and its commit) ends with every chain holding
at most one current version. -/
theorem C8_at_most_one_current_amended_witness :
    execTrace initialDb
        [.beginTx, .insert 1 rowA, .commit 1, .beginTx, .update 2 rowB,
         .commit 2] = some dbC8Final ∧
      ∀ p ∈ dbC8Final.rows, countNone p.2 ≤ 1 :=
  ⟨rfl, C8_at_most_one_current_amended
    [.beginTx, .insert 1 rowA, .commit 1, .beginTx, .update 2 rowB, .commit 2]
    dbC8Final (by rfl) rfl⟩

end MvccRs
